import Mathlib

set_option autoImplicit false

namespace ImmichOperator

/-! Shallow embedding of the immich-operator reconciliation core
(internal/controller of rm3l/immich-operator), together with proofs about
the configuration merge engine, the durable-object retention policy, the
credentials generation, validation, status aggregation, label selectors and
the reconcile orchestrator. -/

/-- Untyped configuration value. This mirrors the Go `interface{}` values that
populate the `map[string]interface{}` YAML documents handled by the
configuration merge engine in internal/controller/config.go: the YAML null,
scalars (strings, integers, booleans), nested string-keyed maps, and lists. -/
inductive Value where
  | null
  | str (s : String)
  | int (n : Int)
  | bool (b : Bool)
  | map (entries : List (String × Value))
  | list (elems : List Value)

/-- Lookup of a key in a Go map modelled as an association list
(first occurrence wins; a well-formed document has no duplicate keys). -/
def lookupKey : List (String × Value) → String → Option Value
  | [], _ => none
  | (k, v) :: rest, key => if k = key then some v else lookupKey rest key

/-- Assignment `m[key] = v` on a Go map modelled as an association list:
replace the first entry carrying the key, or append a new entry. -/
def setKey : List (String × Value) → String → Value → List (String × Value)
  | [], key, v => [(key, v)]
  | (k, w) :: rest, key, v =>
    if k = key then (key, v) :: rest else (k, w) :: setKey rest key v

/-- Deep merge of `src` into `dst` with `src` taking precedence, translated
from `deepMergeMap` in internal/controller/config.go: the function copies
`dst`, then for each entry of `src` skips null values, merges recursively
when both sides hold nested maps, and otherwise lets `src` win outright. -/
def deepMergeMap : List (String × Value) → List (String × Value) → List (String × Value)
  | dst, [] => dst
  | dst, (_, Value.null) :: rest => deepMergeMap dst rest
  | dst, (k, Value.map m) :: rest =>
    (match lookupKey dst k with
     | some (Value.map dm) => deepMergeMap (setKey dst k (Value.map (deepMergeMap dm m))) rest
     | _ => deepMergeMap (setKey dst k (Value.map m)) rest)
  | dst, (k, v) :: rest => deepMergeMap (setKey dst k v) rest
termination_by _ src => sizeOf src
decreasing_by all_goals simp_wf <;> omega

/-- Null pruning translated from `removeNullValues` in
internal/controller/config.go: recursively delete every key whose value is
null, and delete any nested map that becomes empty as a result. The Go
function mutates the map in place; this is the same transformation written
functionally. -/
def pruneEntries : List (String × Value) → List (String × Value)
  | [] => []
  | (k, v) :: rest =>
    match v with
    | Value.null => pruneEntries rest
    | Value.map m =>
      (match pruneEntries m with
       | [] => pruneEntries rest
       | m1 => (k, Value.map m1) :: pruneEntries rest)
    | v => (k, v) :: pruneEntries rest
termination_by l => sizeOf l
decreasing_by all_goals simp_wf <;> omega

/-- Path lookup in a document: descend through nested maps along a list of
keys. Lists and scalars cannot be descended into, matching the structure
walked by the merge and prune functions. -/
def lookupPath : Value → List String → Option Value
  | v, [] => some v
  | v, k :: rest =>
    (match v with
     | Value.map entries =>
       (match lookupKey entries k with
        | some w => lookupPath w rest
        | none => none)
     | _ => none)

/-- Well-formedness of a document: every map along the map spine has
pairwise-distinct keys, as is automatic for Go maps. -/
def entriesWF : List (String × Value) → Bool
  | [] => true
  | (k, v) :: rest =>
    (!(rest.any (fun kv => kv.1 = k))) &&
    (match v with
     | Value.map m => entriesWF m
     | _ => true) &&
    entriesWF rest
termination_by l => sizeOf l
decreasing_by all_goals simp_wf <;> omega

/-- Checker: no map entry at any depth (through nested maps) holds null. -/
def noNullEntries : List (String × Value) → Bool
  | [] => true
  | (_, v) :: rest =>
    (match v with
     | Value.null => false
     | Value.map m => noNullEntries m
     | _ => true) &&
    noNullEntries rest
termination_by l => sizeOf l
decreasing_by all_goals simp_wf <;> omega

/-- Checker: no map entry at any depth (through nested maps) holds an empty
map. -/
def noEmptyMapEntries : List (String × Value) → Bool
  | [] => true
  | (_, v) :: rest =>
    (match v with
     | Value.map [] => false
     | Value.map m => noEmptyMapEntries m
     | _ => true) &&
    noEmptyMapEntries rest
termination_by l => sizeOf l
decreasing_by all_goals simp_wf <;> omega

/-- Leaf values are the values the merge can never descend into: everything
except null and nested maps (scalars and lists). -/
def isLeaf : Value → Bool
  | Value.null => false
  | Value.map _ => false
  | _ => true

/-- Transformation applied by the null-pruning pass to a single value. -/
def pruneValue : Value → Value
  | Value.map m => Value.map (pruneEntries m)
  | v => v

theorem lookupKey_setKey_self (m : List (String × Value)) (k : String) (v : Value) :
    lookupKey (setKey m k v) k = some v := by
  induction m with
  | nil => simp [setKey, lookupKey]
  | cons kv rest ih =>
    obtain ⟨k1, w⟩ := kv
    by_cases h : k1 = k
    · simp [setKey, lookupKey, h]
    · simp [setKey, lookupKey, h, ih]

theorem lookupKey_setKey_ne (m : List (String × Value)) (k k1 : String) (v : Value)
    (h : k1 ≠ k) : lookupKey (setKey m k v) k1 = lookupKey m k1 := by
  have h1 : k ≠ k1 := Ne.symm h
  induction m with
  | nil => simp [setKey, lookupKey, h1]
  | cons kv rest ih =>
    obtain ⟨k2, w⟩ := kv
    by_cases h2 : k2 = k
    · subst h2
      simp [setKey, lookupKey, h1, Ne.symm h1]
    · by_cases h3 : k2 = k1 <;> simp [setKey, lookupKey, h, h2, h3, ih]

theorem lookupKey_eq_none_of_not_keyMem (l : List (String × Value)) (k : String)
    (h : l.any (fun kv => kv.1 = k) = false) : lookupKey l k = none := by
  induction l with
  | nil => rfl
  | cons kv rest ih =>
    simp only [List.any_cons, Bool.or_eq_false_iff] at h
    obtain ⟨h1, h2⟩ := h
    simp only [decide_eq_false_iff_not] at h1
    simp [lookupKey, h1, ih h2]

theorem entriesWF_cons (k : String) (v : Value) (rest : List (String × Value)) :
    entriesWF ((k, v) :: rest) = true ↔
      (rest.any (fun kv => kv.1 = k) = false ∧
        (∀ m, v = Value.map m → entriesWF m = true) ∧ entriesWF rest = true) := by
  cases v <;> (simp [entriesWF, Bool.and_eq_true, Bool.not_eq_true']; try tauto)

theorem entriesWF_lookup (l : List (String × Value)) (k : String) (m : List (String × Value))
    (hwf : entriesWF l = true) (h : lookupKey l k = some (Value.map m)) :
    entriesWF m = true := by
  induction l with
  | nil => simp [lookupKey] at h
  | cons kv rest ih =>
    obtain ⟨k1, v1⟩ := kv
    rw [entriesWF_cons] at hwf
    obtain ⟨_, hv, hrest⟩ := hwf
    by_cases hk : k1 = k
    · simp only [lookupKey, hk, if_pos rfl] at h
      injection h with h
      exact hv m h
    · simp only [lookupKey, hk, if_neg hk] at h
      exact ih hrest h

theorem lookupKey_deepMergeMap_none (src : List (String × Value)) :
    ∀ (dst : List (String × Value)) (k : String), lookupKey src k = none →
      lookupKey (deepMergeMap dst src) k = lookupKey dst k := by
  induction src with
  | nil => intro dst k _; simp [deepMergeMap]
  | cons kv rest ih =>
    intro dst k h
    obtain ⟨k1, v1⟩ := kv
    have hne : k1 ≠ k := by
      intro he
      simp [lookupKey, he] at h
    simp only [lookupKey, if_neg hne] at h
    cases v1 with
    | null => simp only [deepMergeMap]; exact ih dst k h
    | map m =>
      simp only [deepMergeMap]
      cases hdst : lookupKey dst k1 with
      | none =>
        simp only []
        rw [ih _ k h, lookupKey_setKey_ne _ k1 k _ (Ne.symm hne)]
      | some w =>
        cases w <;>
          simp only [] <;>
          rw [ih _ k h, lookupKey_setKey_ne _ k1 k _ (Ne.symm hne)]
    | str s =>
      simp only [deepMergeMap]
      rw [ih _ k h, lookupKey_setKey_ne _ k1 k _ (Ne.symm hne)]
    | int n =>
      simp only [deepMergeMap]
      rw [ih _ k h, lookupKey_setKey_ne _ k1 k _ (Ne.symm hne)]
    | bool b =>
      simp only [deepMergeMap]
      rw [ih _ k h, lookupKey_setKey_ne _ k1 k _ (Ne.symm hne)]
    | list es =>
      simp only [deepMergeMap]
      rw [ih _ k h, lookupKey_setKey_ne _ k1 k _ (Ne.symm hne)]

theorem lookupKey_cons_self (k : String) (v : Value) (rest : List (String × Value)) :
    lookupKey ((k, v) :: rest) k = some v := by
  simp [lookupKey]

theorem lookupKey_cons_ne (k k1 : String) (v : Value) (rest : List (String × Value))
    (h : k1 ≠ k) : lookupKey ((k1, v) :: rest) k = lookupKey rest k := by
  simp [lookupKey, h]

theorem lookupKey_deepMergeMap (src : List (String × Value)) :
    ∀ (dst : List (String × Value)) (k : String), entriesWF src = true →
      lookupKey (deepMergeMap dst src) k =
        (match lookupKey src k with
         | none => lookupKey dst k
         | some Value.null => lookupKey dst k
         | some (Value.map m) =>
           (match lookupKey dst k with
            | some (Value.map dm) => some (Value.map (deepMergeMap dm m))
            | _ => some (Value.map m))
         | some v => some v) := by
  induction src with
  | nil => intro dst k _; simp [deepMergeMap, lookupKey]
  | cons kv rest ih =>
    intro dst k hwf
    obtain ⟨k1, v1⟩ := kv
    rw [entriesWF_cons] at hwf
    obtain ⟨hkeys, _, hrest⟩ := hwf
    by_cases hk : k1 = k
    · subst hk
      have hrnone : lookupKey rest k1 = none := lookupKey_eq_none_of_not_keyMem _ _ hkeys
      rw [lookupKey_cons_self]
      cases v1 with
      | null =>
        simp only [deepMergeMap]
        exact lookupKey_deepMergeMap_none rest dst k1 hrnone
      | map m =>
        cases hd : lookupKey dst k1 with
        | none =>
          simp only [deepMergeMap, hd]
          rw [lookupKey_deepMergeMap_none rest _ k1 hrnone, lookupKey_setKey_self]
        | some w =>
          cases w <;>
            (simp only [deepMergeMap, hd]
             rw [lookupKey_deepMergeMap_none rest _ k1 hrnone, lookupKey_setKey_self])
      | str s =>
        simp only [deepMergeMap]
        rw [lookupKey_deepMergeMap_none rest _ k1 hrnone, lookupKey_setKey_self]
      | int n =>
        simp only [deepMergeMap]
        rw [lookupKey_deepMergeMap_none rest _ k1 hrnone, lookupKey_setKey_self]
      | bool b =>
        simp only [deepMergeMap]
        rw [lookupKey_deepMergeMap_none rest _ k1 hrnone, lookupKey_setKey_self]
      | list es =>
        simp only [deepMergeMap]
        rw [lookupKey_deepMergeMap_none rest _ k1 hrnone, lookupKey_setKey_self]
    · have hsetne : ∀ (d : List (String × Value)) (x : Value),
          lookupKey (setKey d k1 x) k = lookupKey d k :=
        fun d x => lookupKey_setKey_ne d k1 k x (Ne.symm hk)
      rw [lookupKey_cons_ne _ _ _ _ hk]
      cases v1 with
      | null =>
        simp only [deepMergeMap]
        exact ih dst k hrest
      | map m =>
        cases hd : lookupKey dst k1 with
        | none =>
          simp only [deepMergeMap, hd]
          rw [ih _ k hrest]
          cases hr : lookupKey rest k with
          | none => simp only [hsetne]
          | some w => cases w <;> simp only [hsetne]
        | some w =>
          cases w <;>
            (simp only [deepMergeMap, hd]
             rw [ih _ k hrest]
             cases hr : lookupKey rest k with
             | none => simp only [hsetne]
             | some u => cases u <;> simp only [hsetne])
      | str s =>
        simp only [deepMergeMap]
        rw [ih _ k hrest]
        cases hr : lookupKey rest k with
        | none => simp only [hsetne]
        | some w => cases w <;> simp only [hsetne]
      | int n =>
        simp only [deepMergeMap]
        rw [ih _ k hrest]
        cases hr : lookupKey rest k with
        | none => simp only [hsetne]
        | some w => cases w <;> simp only [hsetne]
      | bool b =>
        simp only [deepMergeMap]
        rw [ih _ k hrest]
        cases hr : lookupKey rest k with
        | none => simp only [hsetne]
        | some w => cases w <;> simp only [hsetne]
      | list es =>
        simp only [deepMergeMap]
        rw [ih _ k hrest]
        cases hr : lookupKey rest k with
        | none => simp only [hsetne]
        | some w => cases w <;> simp only [hsetne]

theorem lookupPath_nil (v : Value) : lookupPath v [] = some v := rfl

theorem lookupPath_map_cons (es : List (String × Value)) (k : String) (rest : List String) :
    lookupPath (Value.map es) (k :: rest) =
      (match lookupKey es k with
       | some w => lookupPath w rest
       | none => none) := rfl

/-- Override precedence for the deep merge: any non-null leaf (scalar or
list) defined by the override at some path appears verbatim in the merge
result at that path. -/
theorem merge_path_leaf :
    ∀ (p : List String) (dst src : List (String × Value)) (v : Value),
      entriesWF src = true → isLeaf v = true →
      lookupPath (Value.map src) p = some v →
      lookupPath (Value.map (deepMergeMap dst src)) p = some v := by
  intro p
  induction p with
  | nil =>
    intro dst src v _ hleaf hpath
    rw [lookupPath_nil] at hpath
    injection hpath with hpath
    rw [← hpath] at hleaf
    simp [isLeaf] at hleaf
  | cons k rest ih =>
    intro dst src v hwf hleaf hpath
    rw [lookupPath_map_cons] at hpath
    have hchar := lookupKey_deepMergeMap src dst k hwf
    cases hs : lookupKey src k with
    | none => rw [hs] at hpath; exact absurd hpath (by simp)
    | some w =>
      rw [hs] at hpath hchar
      simp only [] at hpath
      cases w with
      | null =>
        cases rest with
        | nil =>
          rw [lookupPath_nil] at hpath
          injection hpath with hpath
          rw [← hpath] at hleaf
          simp [isLeaf] at hleaf
        | cons r rs => exact absurd hpath (by simp [lookupPath])
      | map m =>
        cases rest with
        | nil =>
          rw [lookupPath_nil] at hpath
          injection hpath with hpath
          rw [← hpath] at hleaf
          simp [isLeaf] at hleaf
        | cons r rs =>
          have hwfm : entriesWF m = true := entriesWF_lookup src k m hwf hs
          cases hd : lookupKey dst k with
          | none =>
            rw [hd] at hchar
            simp only [] at hchar
            rw [lookupPath_map_cons, hchar]
            exact hpath
          | some u =>
            cases u with
            | map dm =>
              rw [hd] at hchar
              simp only [] at hchar
              rw [lookupPath_map_cons, hchar]
              exact ih dm m v hwfm hleaf hpath
            | null =>
              rw [hd] at hchar; simp only [] at hchar
              rw [lookupPath_map_cons, hchar]; exact hpath
            | str s =>
              rw [hd] at hchar; simp only [] at hchar
              rw [lookupPath_map_cons, hchar]; exact hpath
            | int n =>
              rw [hd] at hchar; simp only [] at hchar
              rw [lookupPath_map_cons, hchar]; exact hpath
            | bool b =>
              rw [hd] at hchar; simp only [] at hchar
              rw [lookupPath_map_cons, hchar]; exact hpath
            | list es =>
              rw [hd] at hchar; simp only [] at hchar
              rw [lookupPath_map_cons, hchar]; exact hpath
      | str s =>
        cases rest with
        | nil =>
          rw [lookupPath_nil] at hpath
          simp only [] at hchar
          rw [lookupPath_map_cons, hchar, hpath]
          rfl
        | cons r rs => exact absurd hpath (by simp [lookupPath])
      | int n =>
        cases rest with
        | nil =>
          rw [lookupPath_nil] at hpath
          simp only [] at hchar
          rw [lookupPath_map_cons, hchar, hpath]
          rfl
        | cons r rs => exact absurd hpath (by simp [lookupPath])
      | bool b =>
        cases rest with
        | nil =>
          rw [lookupPath_nil] at hpath
          simp only [] at hchar
          rw [lookupPath_map_cons, hchar, hpath]
          rfl
        | cons r rs => exact absurd hpath (by simp [lookupPath])
      | list es =>
        cases rest with
        | nil =>
          rw [lookupPath_nil] at hpath
          simp only [] at hchar
          rw [lookupPath_map_cons, hchar, hpath]
          rfl
        | cons r rs => exact absurd hpath (by simp [lookupPath])

/-- Null preservation for the deep merge: a null in the override never
erases a base value — wherever the base defines a value and the override
defines null, the merge result keeps the base value. -/
theorem merge_path_null :
    ∀ (p : List String) (dst src : List (String × Value)) (v : Value),
      entriesWF src = true →
      lookupPath (Value.map src) p = some Value.null →
      lookupPath (Value.map dst) p = some v →
      lookupPath (Value.map (deepMergeMap dst src)) p = some v := by
  intro p
  induction p with
  | nil =>
    intro dst src v _ hsrc _
    rw [lookupPath_nil] at hsrc
    exact absurd hsrc (by simp)
  | cons k rest ih =>
    intro dst src v hwf hsrc hdst
    rw [lookupPath_map_cons] at hsrc hdst
    have hchar := lookupKey_deepMergeMap src dst k hwf
    cases hs : lookupKey src k with
    | none => rw [hs] at hsrc; exact absurd hsrc (by simp)
    | some w =>
      rw [hs] at hsrc hchar
      simp only [] at hsrc
      cases w with
      | null =>
        cases rest with
        | nil =>
          cases hd : lookupKey dst k with
          | none => rw [hd] at hdst; exact absurd hdst (by simp)
          | some u =>
            rw [hd] at hdst
            simp only [lookupPath_nil] at hdst
            rw [hd] at hchar
            rw [lookupPath_map_cons, hchar, hdst]
            rfl
        | cons r rs => exact absurd hsrc (by simp [lookupPath])
      | map m =>
        cases rest with
        | nil => exact absurd hsrc (by simp [lookupPath_nil])
        | cons r rs =>
          have hwfm : entriesWF m = true := entriesWF_lookup src k m hwf hs
          cases hd : lookupKey dst k with
          | none => rw [hd] at hdst; exact absurd hdst (by simp)
          | some u =>
            rw [hd] at hdst
            simp only [] at hdst
            cases u with
            | map dm =>
              rw [hd] at hchar
              simp only [] at hchar
              rw [lookupPath_map_cons, hchar]
              exact ih dm m v hwfm hsrc hdst
            | null => exact absurd hdst (by simp [lookupPath])
            | str s => exact absurd hdst (by simp [lookupPath])
            | int n => exact absurd hdst (by simp [lookupPath])
            | bool b => exact absurd hdst (by simp [lookupPath])
            | list es => exact absurd hdst (by simp [lookupPath])
      | str s =>
        cases rest with
        | nil => exact absurd hsrc (by simp [lookupPath_nil])
        | cons r rs => exact absurd hsrc (by simp [lookupPath])
      | int n =>
        cases rest with
        | nil => exact absurd hsrc (by simp [lookupPath_nil])
        | cons r rs => exact absurd hsrc (by simp [lookupPath])
      | bool b =>
        cases rest with
        | nil => exact absurd hsrc (by simp [lookupPath_nil])
        | cons r rs => exact absurd hsrc (by simp [lookupPath])
      | list es =>
        cases rest with
        | nil => exact absurd hsrc (by simp [lookupPath_nil])
        | cons r rs => exact absurd hsrc (by simp [lookupPath])

/-- Base preservation for the deep merge: at a path where the override is
absent, the merge result agrees with the base, provided the override does
not hold a non-null leaf at a strict prefix of the path (overriding a
prefix with a scalar or list replaces the whole base subtree outright). -/
theorem merge_path_absent :
    ∀ (p : List String) (dst src : List (String × Value)),
      entriesWF src = true →
      lookupPath (Value.map src) p = none →
      (∀ (q r : List String) (w : Value), p = q ++ r → r ≠ [] →
        lookupPath (Value.map src) q = some w → isLeaf w = false) →
      lookupPath (Value.map (deepMergeMap dst src)) p = lookupPath (Value.map dst) p := by
  intro p
  induction p with
  | nil =>
    intro dst src _ hsrc _
    exact absurd hsrc (by simp [lookupPath_nil])
  | cons k rest ih =>
    intro dst src hwf hsrc hpre
    rw [lookupPath_map_cons] at hsrc
    have hchar := lookupKey_deepMergeMap src dst k hwf
    cases hs : lookupKey src k with
    | none =>
      rw [hs] at hchar
      simp only [] at hchar
      rw [lookupPath_map_cons, lookupPath_map_cons, hchar]
    | some w =>
      rw [hs] at hsrc hchar
      simp only [] at hsrc
      cases w with
      | null =>
        simp only [] at hchar
        rw [lookupPath_map_cons, lookupPath_map_cons, hchar]
      | map m =>
        cases rest with
        | nil => exact absurd hsrc (by simp [lookupPath_nil])
        | cons r rs =>
          have hwfm : entriesWF m = true := entriesWF_lookup src k m hwf hs
          have hpre1 : ∀ (q r1 : List String) (w1 : Value), r :: rs = q ++ r1 → r1 ≠ [] →
              lookupPath (Value.map m) q = some w1 → isLeaf w1 = false := by
            intro q r1 w1 hq hr1 hlook
            refine hpre (k :: q) r1 w1 (by rw [hq]; rfl) hr1 ?_
            rw [lookupPath_map_cons, hs]
            exact hlook
          cases hd : lookupKey dst k with
          | none =>
            rw [hd] at hchar
            simp only [] at hchar
            rw [lookupPath_map_cons, lookupPath_map_cons, hchar, hd]
            exact hsrc
          | some u =>
            cases u with
            | map dm =>
              rw [hd] at hchar
              simp only [] at hchar
              rw [lookupPath_map_cons, lookupPath_map_cons, hchar, hd]
              exact ih dm m hwfm hsrc hpre1
            | null =>
              rw [hd] at hchar; simp only [] at hchar
              rw [lookupPath_map_cons, lookupPath_map_cons, hchar, hd]
              exact hsrc
            | str s =>
              rw [hd] at hchar; simp only [] at hchar
              rw [lookupPath_map_cons, lookupPath_map_cons, hchar, hd]
              exact hsrc
            | int n =>
              rw [hd] at hchar; simp only [] at hchar
              rw [lookupPath_map_cons, lookupPath_map_cons, hchar, hd]
              exact hsrc
            | bool b =>
              rw [hd] at hchar; simp only [] at hchar
              rw [lookupPath_map_cons, lookupPath_map_cons, hchar, hd]
              exact hsrc
            | list es =>
              rw [hd] at hchar; simp only [] at hchar
              rw [lookupPath_map_cons, lookupPath_map_cons, hchar, hd]
              exact hsrc
      | str s =>
        cases rest with
        | nil => exact absurd hsrc (by simp [lookupPath_nil])
        | cons r rs =>
          have : isLeaf (Value.str s) = false :=
            hpre [k] (r :: rs) (Value.str s) rfl (by simp)
              (by rw [lookupPath_map_cons, hs]; rfl)
          simp [isLeaf] at this
      | int n =>
        cases rest with
        | nil => exact absurd hsrc (by simp [lookupPath_nil])
        | cons r rs =>
          have : isLeaf (Value.int n) = false :=
            hpre [k] (r :: rs) (Value.int n) rfl (by simp)
              (by rw [lookupPath_map_cons, hs]; rfl)
          simp [isLeaf] at this
      | bool b =>
        cases rest with
        | nil => exact absurd hsrc (by simp [lookupPath_nil])
        | cons r rs =>
          have : isLeaf (Value.bool b) = false :=
            hpre [k] (r :: rs) (Value.bool b) rfl (by simp)
              (by rw [lookupPath_map_cons, hs]; rfl)
          simp [isLeaf] at this
      | list es =>
        cases rest with
        | nil => exact absurd hsrc (by simp [lookupPath_nil])
        | cons r rs =>
          have : isLeaf (Value.list es) = false :=
            hpre [k] (r :: rs) (Value.list es) rfl (by simp)
              (by rw [lookupPath_map_cons, hs]; rfl)
          simp [isLeaf] at this

theorem deepMergeMap_empty (dst : List (String × Value)) : deepMergeMap dst [] = dst := by
  simp [deepMergeMap]

/-- C3 counterexample. With base = {a: {b: 1}} and override = {a: 2}, the
override is absent at the path a.b (its value at a is a scalar), the base
holds 1 there, yet the merge result holds nothing at a.b: deepMergeMap does
not agree with the base at every path where the override is absent, because
an override leaf at a prefix replaces the whole base subtree. This refutes
the claim as universally stated. -/
theorem claim3_counterexample :
    lookupPath (Value.map [("a", Value.int 2)]) ["a", "b"] = none ∧
    lookupPath (Value.map [("a", Value.map [("b", Value.int 1)])]) ["a", "b"]
      = some (Value.int 1) ∧
    lookupPath
      (Value.map (deepMergeMap [("a", Value.map [("b", Value.int 1)])] [("a", Value.int 2)]))
      ["a", "b"] = none := by
  refine ⟨by rfl, by rfl, ?_⟩
  simp [deepMergeMap, lookupKey, setKey, lookupPath]

/-- C3 (amended). For well-formed documents (distinct keys per map, as for
Go maps): merging with an empty override returns the base unchanged; the
merge result agrees with the override at every path where the override
defines a non-null leaf (scalar or list; where both sides hold nested maps
the merge is recursive); a null in the override never erases a base value
(wherever the base defines a value and the override defines null, the
result keeps the base value); and the result agrees with the base at every
path where the override is absent, provided the override does not hold a
non-null leaf at a strict prefix of the path — without that proviso the
claim fails, because an override leaf at a prefix replaces the whole base
subtree outright. -/
theorem claim3_merge_precedence_amended :
    (∀ dst : List (String × Value), deepMergeMap dst [] = dst) ∧
    (∀ (dst src : List (String × Value)) (p : List String) (v : Value),
      entriesWF src = true → isLeaf v = true →
      lookupPath (Value.map src) p = some v →
      lookupPath (Value.map (deepMergeMap dst src)) p = some v) ∧
    (∀ (dst src : List (String × Value)) (p : List String) (v : Value),
      entriesWF src = true →
      lookupPath (Value.map src) p = some Value.null →
      lookupPath (Value.map dst) p = some v →
      lookupPath (Value.map (deepMergeMap dst src)) p = some v) ∧
    (∀ (dst src : List (String × Value)) (p : List String),
      entriesWF src = true →
      lookupPath (Value.map src) p = none →
      (∀ (q r : List String) (w : Value), p = q ++ r → r ≠ [] →
        lookupPath (Value.map src) q = some w → isLeaf w = false) →
      lookupPath (Value.map (deepMergeMap dst src)) p = lookupPath (Value.map dst) p) :=
  ⟨deepMergeMap_empty,
   fun dst src p v hwf hleaf hpath => merge_path_leaf p dst src v hwf hleaf hpath,
   fun dst src p v hwf hsrc hdst => merge_path_null p dst src v hwf hsrc hdst,
   fun dst src p hwf hsrc hpre => merge_path_absent p dst src hwf hsrc hpre⟩

/-- C3 witness: the amended theorem applied at a concrete input — the
override scalar at key a wins over the base scalar. -/
theorem claim3_witness :
    lookupPath (Value.map (deepMergeMap [("a", Value.int 7), ("x", Value.str "keep")]
      [("a", Value.int 2)])) ["a"] = some (Value.int 2) :=
  claim3_merge_precedence_amended.2.1 [("a", Value.int 7), ("x", Value.str "keep")]
    [("a", Value.int 2)] ["a"] (Value.int 2)
    (by simp [entriesWF]) (by rfl) (by rfl)

/-- Result of the null-pruning pass holds no null at any depth. -/
theorem prune_noNull (l : List (String × Value)) : noNullEntries (pruneEntries l) = true := by
  induction l using pruneEntries.induct with
  | case1 => simp [pruneEntries, noNullEntries]
  | case2 k rest ih => simpa [pruneEntries] using ih
  | case3 k m rest hm ih1 ih2 => simpa [pruneEntries, hm] using ih2
  | case4 a b c d e f =>
    cases hc : pruneEntries c with
    | nil => exact absurd hc d
    | cons x xs =>
      rw [hc] at e
      simp [pruneEntries, hc, noNullEntries]
      exact ⟨e, f⟩
  | case5 a b c hnn hnm ih =>
    cases c with
    | null => exact absurd rfl hnn
    | map m => exact absurd rfl (hnm m)
    | str s => simpa [pruneEntries, noNullEntries] using ih
    | int n => simpa [pruneEntries, noNullEntries] using ih
    | bool b1 => simpa [pruneEntries, noNullEntries] using ih
    | list es => simpa [pruneEntries, noNullEntries] using ih

/-- Result of the null-pruning pass holds no empty map at any depth: a
nested map that becomes empty is itself deleted. -/
theorem prune_noEmpty (l : List (String × Value)) :
    noEmptyMapEntries (pruneEntries l) = true := by
  induction l using pruneEntries.induct with
  | case1 => simp [pruneEntries, noEmptyMapEntries]
  | case2 k rest ih => simpa [pruneEntries] using ih
  | case3 k m rest hm ih1 ih2 => simpa [pruneEntries, hm] using ih2
  | case4 a b c d e f =>
    cases hc : pruneEntries c with
    | nil => exact absurd hc d
    | cons x xs =>
      rw [hc] at e
      simp [pruneEntries, hc, noEmptyMapEntries]
      exact ⟨e, f⟩
  | case5 a b c hnn hnm ih =>
    cases c with
    | null => exact absurd rfl hnn
    | map m => exact absurd rfl (hnm m)
    | str s => simpa [pruneEntries, noEmptyMapEntries] using ih
    | int n => simpa [pruneEntries, noEmptyMapEntries] using ih
    | bool b1 => simpa [pruneEntries, noEmptyMapEntries] using ih
    | list es => simpa [pruneEntries, noEmptyMapEntries] using ih

/-- Pruning never introduces a key: a key absent from the document is
absent from the pruned document. -/
theorem lookupKey_prune_none (l : List (String × Value)) :
    ∀ k : String, lookupKey l k = none → lookupKey (pruneEntries l) k = none := by
  induction l using pruneEntries.induct with
  | case1 => intro k _; simp [pruneEntries, lookupKey]
  | case2 k1 rest ih =>
    intro k h
    rw [lookupKey] at h
    by_cases hk : k1 = k
    · simp [hk] at h
    · rw [if_neg hk] at h
      simpa [pruneEntries] using ih k h
  | case3 k1 m rest hm ih1 ih2 =>
    intro k h
    rw [lookupKey] at h
    by_cases hk : k1 = k
    · simp [hk] at h
    · rw [if_neg hk] at h
      simpa [pruneEntries, hm] using ih2 k h
  | case4 k1 rest c d ih1 ih2 =>
    intro k h
    rw [lookupKey] at h
    by_cases hk : k1 = k
    · simp [hk] at h
    · rw [if_neg hk] at h
      cases hc : pruneEntries c with
      | nil => exact absurd hc d
      | cons x xs =>
        simp only [pruneEntries, hc]
        rw [lookupKey, if_neg hk]
        exact ih2 k h
  | case5 k1 rest c hnn hnm ih =>
    intro k h
    rw [lookupKey] at h
    by_cases hk : k1 = k
    · simp [hk] at h
    · rw [if_neg hk] at h
      cases c with
      | null => exact absurd rfl hnn
      | map m => exact absurd rfl (hnm m)
      | str s =>
        simp only [pruneEntries]
        rw [lookupKey, if_neg hk]
        exact ih k h
      | int n =>
        simp only [pruneEntries]
        rw [lookupKey, if_neg hk]
        exact ih k h
      | bool b1 =>
        simp only [pruneEntries]
        rw [lookupKey, if_neg hk]
        exact ih k h
      | list es =>
        simp only [pruneEntries]
        rw [lookupKey, if_neg hk]
        exact ih k h

/-- Exact per-key behaviour of the null-pruning pass on a well-formed map:
a null entry is deleted, a nested-map entry is pruned recursively and
deleted when the pruned map is empty, every other entry is kept verbatim,
and no key is invented. -/
theorem lookupKey_pruneEntries (l : List (String × Value)) :
    ∀ k : String, entriesWF l = true →
      lookupKey (pruneEntries l) k =
        (match lookupKey l k with
         | some Value.null => none
         | some (Value.map mm) =>
           (match pruneEntries mm with
            | [] => none
            | m1 => some (Value.map m1))
         | some v => some v
         | none => none) := by
  induction l with
  | nil => intro k _; simp [pruneEntries, lookupKey]
  | cons kv rest ih =>
    intro k hwf
    obtain ⟨k1, v1⟩ := kv
    rw [entriesWF_cons] at hwf
    obtain ⟨hkeys, _, hrest⟩ := hwf
    have hrnone : lookupKey rest k1 = none := lookupKey_eq_none_of_not_keyMem _ _ hkeys
    by_cases hk : k1 = k
    · subst hk
      rw [lookupKey_cons_self]
      cases v1 with
      | null =>
        simp only [pruneEntries]
        rw [lookupKey_prune_none rest k1 hrnone]
      | map m =>
        cases hm : pruneEntries m with
        | nil =>
          simp only [pruneEntries, hm]
          rw [lookupKey_prune_none rest k1 hrnone]
        | cons x xs =>
          simp only [pruneEntries, hm]
          rw [lookupKey_cons_self]
      | str s => simp only [pruneEntries]; rw [lookupKey_cons_self]
      | int n => simp only [pruneEntries]; rw [lookupKey_cons_self]
      | bool b => simp only [pruneEntries]; rw [lookupKey_cons_self]
      | list es => simp only [pruneEntries]; rw [lookupKey_cons_self]
    · rw [lookupKey_cons_ne _ _ _ _ hk]
      cases v1 with
      | null =>
        simp only [pruneEntries]
        exact ih k hrest
      | map m =>
        cases hm : pruneEntries m with
        | nil =>
          simp only [pruneEntries, hm]
          exact ih k hrest
        | cons x xs =>
          simp only [pruneEntries, hm]
          rw [lookupKey_cons_ne _ _ _ _ hk]
          exact ih k hrest
      | str s =>
        simp only [pruneEntries]
        rw [lookupKey_cons_ne _ _ _ _ hk]
        exact ih k hrest
      | int n =>
        simp only [pruneEntries]
        rw [lookupKey_cons_ne _ _ _ _ hk]
        exact ih k hrest
      | bool b =>
        simp only [pruneEntries]
        rw [lookupKey_cons_ne _ _ _ _ hk]
        exact ih k hrest
      | list es =>
        simp only [pruneEntries]
        rw [lookupKey_cons_ne _ _ _ _ hk]
        exact ih k hrest

/-- List entries survive pruning verbatim: pruning keeps the first entry of
any key whose value is a list, without descending into the list. This needs
no well-formedness hypothesis. -/
theorem lookupKey_prune_list (l : List (String × Value)) :
    ∀ (k : String) (es : List Value), lookupKey l k = some (Value.list es) →
      lookupKey (pruneEntries l) k = some (Value.list es) := by
  induction l using pruneEntries.induct with
  | case1 => intro k es h; simp [lookupKey] at h
  | case2 k1 rest ih =>
    intro k es h
    rw [lookupKey] at h
    by_cases hk : k1 = k
    · rw [if_pos hk] at h; exact absurd h (by simp)
    · rw [if_neg hk] at h
      simpa [pruneEntries] using ih k es h
  | case3 k1 m rest hm ih1 ih2 =>
    intro k es h
    rw [lookupKey] at h
    by_cases hk : k1 = k
    · rw [if_pos hk] at h; exact absurd h (by simp)
    · rw [if_neg hk] at h
      simpa [pruneEntries, hm] using ih2 k es h
  | case4 k1 rest c d ih1 ih2 =>
    intro k es h
    rw [lookupKey] at h
    by_cases hk : k1 = k
    · rw [if_pos hk] at h; exact absurd h (by simp)
    · rw [if_neg hk] at h
      cases hc : pruneEntries c with
      | nil => exact absurd hc d
      | cons x xs =>
        simp only [pruneEntries, hc]
        rw [lookupKey, if_neg hk]
        exact ih2 k es h
  | case5 k1 rest c hnn hnm ih =>
    intro k es h
    rw [lookupKey] at h
    by_cases hk : k1 = k
    · rw [if_pos hk] at h
      cases c with
      | null => exact absurd rfl hnn
      | map m => exact absurd rfl (hnm m)
      | str s => exact absurd h (by simp)
      | int n => exact absurd h (by simp)
      | bool b1 => exact absurd h (by simp)
      | list es1 =>
        injection h with h
        simp only [pruneEntries]
        rw [lookupKey, if_pos hk, h]
    · rw [if_neg hk] at h
      cases c with
      | null => exact absurd rfl hnn
      | map m => exact absurd rfl (hnm m)
      | str s =>
        simp only [pruneEntries]
        rw [lookupKey, if_neg hk]
        exact ih k es h
      | int n =>
        simp only [pruneEntries]
        rw [lookupKey, if_neg hk]
        exact ih k es h
      | bool b1 =>
        simp only [pruneEntries]
        rw [lookupKey, if_neg hk]
        exact ih k es h
      | list es1 =>
        simp only [pruneEntries]
        rw [lookupKey, if_neg hk]
        exact ih k es h

/-- Nested-map entries whose pruned form is nonempty survive pruning at
their key, with the pruned map as value. This needs no well-formedness
hypothesis. -/
theorem lookupKey_prune_map (l : List (String × Value)) :
    ∀ (k : String) (mm : List (String × Value)),
      lookupKey l k = some (Value.map mm) → pruneEntries mm ≠ [] →
      lookupKey (pruneEntries l) k = some (Value.map (pruneEntries mm)) := by
  induction l using pruneEntries.induct with
  | case1 => intro k mm h _; simp [lookupKey] at h
  | case2 k1 rest ih =>
    intro k mm h hne
    rw [lookupKey] at h
    by_cases hk : k1 = k
    · rw [if_pos hk] at h; exact absurd h (by simp)
    · rw [if_neg hk] at h
      simpa [pruneEntries] using ih k mm h hne
  | case3 k1 m rest hm ih1 ih2 =>
    intro k mm h hne
    rw [lookupKey] at h
    by_cases hk : k1 = k
    · rw [if_pos hk] at h
      injection h with h
      injection h with h
      rw [h] at hm
      exact absurd hm hne
    · rw [if_neg hk] at h
      simpa [pruneEntries, hm] using ih2 k mm h hne
  | case4 k1 rest c d ih1 ih2 =>
    intro k mm h hne
    rw [lookupKey] at h
    by_cases hk : k1 = k
    · rw [if_pos hk] at h
      injection h with h
      injection h with h
      cases hc : pruneEntries c with
      | nil => exact absurd hc d
      | cons x xs =>
        simp only [pruneEntries, hc]
        rw [lookupKey, if_pos hk, ← h, hc]
    · rw [if_neg hk] at h
      cases hc : pruneEntries c with
      | nil => exact absurd hc d
      | cons x xs =>
        simp only [pruneEntries, hc]
        rw [lookupKey, if_neg hk]
        exact ih2 k mm h hne
  | case5 k1 rest c hnn hnm ih =>
    intro k mm h hne
    rw [lookupKey] at h
    by_cases hk : k1 = k
    · rw [if_pos hk] at h
      cases c with
      | null => exact absurd rfl hnn
      | map m => exact absurd rfl (hnm m)
      | str s => exact absurd h (by simp)
      | int n => exact absurd h (by simp)
      | bool b1 => exact absurd h (by simp)
      | list es1 => exact absurd h (by simp)
    · rw [if_neg hk] at h
      cases c with
      | null => exact absurd rfl hnn
      | map m => exact absurd rfl (hnm m)
      | str s =>
        simp only [pruneEntries]
        rw [lookupKey, if_neg hk]
        exact ih k mm h hne
      | int n =>
        simp only [pruneEntries]
        rw [lookupKey, if_neg hk]
        exact ih k mm h hne
      | bool b1 =>
        simp only [pruneEntries]
        rw [lookupKey, if_neg hk]
        exact ih k mm h hne
      | list es1 =>
        simp only [pruneEntries]
        rw [lookupKey, if_neg hk]
        exact ih k mm h hne

/-- C10. removeNullValues never descends into list values: any entry whose
value is a list is left entirely unchanged by the pruning pass — including
null elements inside the list and maps (possibly containing nulls) nested
inside list elements — because the pass only recurses into map values. At
every path of nested maps that leads to a list in the input, the pruned
document holds the identical list. -/
theorem claim10_lists_untouched :
    ∀ (p : List String) (m : List (String × Value)) (es : List Value),
      lookupPath (Value.map m) p = some (Value.list es) →
      lookupPath (Value.map (pruneEntries m)) p = some (Value.list es) := by
  intro p
  induction p with
  | nil =>
    intro m es h
    rw [lookupPath_nil] at h
    exact absurd h (by simp)
  | cons k rest ih =>
    intro m es h
    rw [lookupPath_map_cons] at h
    cases hs : lookupKey m k with
    | none => rw [hs] at h; exact absurd h (by simp)
    | some w =>
      rw [hs] at h
      simp only [] at h
      cases w with
      | null =>
        cases rest with
        | nil => exact absurd h (by simp [lookupPath_nil])
        | cons r rs => exact absurd h (by simp [lookupPath])
      | map mm =>
        cases rest with
        | nil => exact absurd h (by simp [lookupPath_nil])
        | cons r rs =>
          have hres := ih mm es h
          have hne : pruneEntries mm ≠ [] := by
            intro h0
            rw [h0] at hres
            simp [lookupPath, lookupKey] at hres
          rw [lookupPath_map_cons, lookupKey_prune_map m k mm hs hne]
          exact hres
      | str s =>
        cases rest with
        | nil => exact absurd h (by simp [lookupPath_nil])
        | cons r rs => exact absurd h (by simp [lookupPath])
      | int n =>
        cases rest with
        | nil => exact absurd h (by simp [lookupPath_nil])
        | cons r rs => exact absurd h (by simp [lookupPath])
      | bool b =>
        cases rest with
        | nil => exact absurd h (by simp [lookupPath_nil])
        | cons r rs => exact absurd h (by simp [lookupPath])
      | list es1 =>
        cases rest with
        | nil =>
          rw [lookupPath_nil] at h
          injection h with h
          rw [lookupPath_map_cons, lookupKey_prune_list m k es1 hs, h]
          rfl
        | cons r rs => exact absurd h (by simp [lookupPath])

/-- C10 witness: a list containing a null and a map with a null inside it
survives pruning verbatim, while the sibling null entry is removed. -/
theorem claim10_witness :
    lookupPath
      (Value.map (pruneEntries
        [("outer", Value.map
          [("keep", Value.list [Value.null, Value.map [("x", Value.null)]]),
           ("drop", Value.null)])]))
      ["outer", "keep"]
      = some (Value.list [Value.null, Value.map [("x", Value.null)]]) :=
  claim10_lists_untouched ["outer", "keep"]
    [("outer", Value.map
      [("keep", Value.list [Value.null, Value.map [("x", Value.null)]]),
       ("drop", Value.null)])]
    [Value.null, Value.map [("x", Value.null)]]
    (by rfl)

/-! Data model of the Immich custom resource, translated from
api/v1alpha1/immich_types.go. Pointer-valued scalar fields whose accessors
treat nil and the zero value identically (images, hosts, usernames, URLs)
are modelled as plain strings with the empty string for absence; tri-state
booleans and reference fields whose presence matters are kept as options.
Kubernetes resource quantities are modelled as their strings, with the
empty string for a nil pointer and the zero check matching Quantity.IsZero. -/

/-- Reference to a key of a secret, from SecretKeySelector in
api/v1alpha1/immich_types.go. -/
structure SecretKeySelector where
  name : String
  key : String

/-- Library persistence block of the CR, from LibraryPersistenceSpec. -/
structure LibraryPersistence where
  existingClaim : String
  size : String
  storageClass : Option String
  accessModes : List String

/-- Persistence block of the shared Immich section, from PersistenceSpec. -/
structure PersistenceSpec where
  library : Option LibraryPersistence

/-- Metrics toggle, from MetricsSpec. -/
structure MetricsSpec where
  enabled : Option Bool

/-- Shared Immich section of the CR spec, from ImmichConfig. The free-form
configuration document is carried as an untyped map, the form in which
configSpecToMap consumes it after the YAML round trip. -/
structure ImmichConfig where
  persistence : Option PersistenceSpec
  configuration : Option (List (String × Value))
  configurationKind : String
  metrics : Option MetricsSpec

/-- Server component spec, from ServerSpec (fields read by the embedded
functions). -/
structure ServerSpec where
  enabled : Option Bool
  image : String
  podLabels : List (String × String)

/-- Machine-learning component spec, from MachineLearningSpec. -/
structure MachineLearningSpec where
  enabled : Option Bool
  image : String
  url : String

/-- Valkey component spec, from ValkeySpec. -/
structure ValkeySpec where
  enabled : Option Bool
  image : String
  host : String

/-- PostgreSQL component spec, from PostgresSpec. -/
structure PostgresSpec where
  enabled : Option Bool
  image : String
  host : String
  username : String
  database : String
  passwordSecretRef : Option SecretKeySelector
  urlSecretRef : Option SecretKeySelector

/-- Spec of the Immich custom resource, from ImmichSpec. -/
structure ImmichSpec where
  server : Option ServerSpec
  machineLearning : Option MachineLearningSpec
  valkey : Option ValkeySpec
  postgres : Option PostgresSpec
  immich : Option ImmichConfig

/-- An Immich custom resource: its name and spec (the fields the embedded
reconciliation functions read). -/
structure Immich where
  name : String
  spec : ImmichSpec

/-- Process environment of the operator: the RELATED_IMAGE default image
references read through os.Getenv, modelled as explicit inputs. -/
structure Env where
  relatedImageImmich : String
  relatedImageMachineLearning : String
  relatedImageValkey : String
  relatedImagePostgres : String

/-- IsServerEnabled from immich_types.go: nil spec or nil flag defaults to
enabled. -/
def isServerEnabled (i : Immich) : Bool :=
  match i.spec.server with
  | none => true
  | some s => s.enabled.getD true

/-- IsMachineLearningEnabled from immich_types.go. -/
def isMachineLearningEnabled (i : Immich) : Bool :=
  match i.spec.machineLearning with
  | none => true
  | some ml => ml.enabled.getD true

/-- IsValkeyEnabled from immich_types.go. -/
def isValkeyEnabled (i : Immich) : Bool :=
  match i.spec.valkey with
  | none => true
  | some v => v.enabled.getD true

/-- IsPostgresEnabled from immich_types.go. -/
def isPostgresEnabled (i : Immich) : Bool :=
  match i.spec.postgres with
  | none => true
  | some p => p.enabled.getD true

/-- GetServerImage from immich_types.go: the spec image wins, otherwise the
RELATED_IMAGE_immich environment default. -/
def getServerImage (env : Env) (i : Immich) : String :=
  match i.spec.server with
  | some s => if s.image = "" then env.relatedImageImmich else s.image
  | none => env.relatedImageImmich

/-- GetMachineLearningImage from immich_types.go. -/
def getMachineLearningImage (env : Env) (i : Immich) : String :=
  match i.spec.machineLearning with
  | some ml => if ml.image = "" then env.relatedImageMachineLearning else ml.image
  | none => env.relatedImageMachineLearning

/-- GetValkeyImage from immich_types.go. -/
def getValkeyImage (env : Env) (i : Immich) : String :=
  match i.spec.valkey with
  | some v => if v.image = "" then env.relatedImageValkey else v.image
  | none => env.relatedImageValkey

/-- GetPostgresImage from immich_types.go. -/
def getPostgresImage (env : Env) (i : Immich) : String :=
  match i.spec.postgres with
  | some p => if p.image = "" then env.relatedImagePostgres else p.image
  | none => env.relatedImagePostgres

/-- Library persistence block of a CR, traversing the optional spec.immich
and spec.immich.persistence pointers. -/
def libraryPersistence (i : Immich) : Option LibraryPersistence :=
  match i.spec.immich with
  | some ic =>
    (match ic.persistence with
     | some p => p.library
     | none => none)
  | none => none

/-- GetLibraryPVCName from immich_types.go: the existing claim when set,
otherwise name-library. -/
def getLibraryPVCName (i : Immich) : String :=
  match libraryPersistence i with
  | some lib => if lib.existingClaim = "" then i.name ++ "-library" else lib.existingClaim
  | none => i.name ++ "-library"

/-- Zero check on a modelled resource quantity: a nil pointer (empty
string) or the zero quantity. -/
def isZeroQuantity (q : String) : Bool := q = "" || q = "0"

/-- GetLibrarySize from immich_types.go: the configured size when set and
nonzero, otherwise 10Gi. -/
def getLibrarySize (i : Immich) : String :=
  match libraryPersistence i with
  | some lib => if isZeroQuantity lib.size then "10Gi" else lib.size
  | none => "10Gi"

/-- GetLibraryAccessModes from immich_types.go: defaults to ReadWriteOnce. -/
def getLibraryAccessModes (i : Immich) : List String :=
  match libraryPersistence i with
  | some lib => if lib.accessModes = [] then ["ReadWriteOnce"] else lib.accessModes
  | none => ["ReadWriteOnce"]

/-- GetLibraryStorageClass from immich_types.go. -/
def getLibraryStorageClass (i : Immich) : Option String :=
  match libraryPersistence i with
  | some lib => lib.storageClass
  | none => none

/-- GetPostgresUsername from immich_types.go: defaults to immich. -/
def getPostgresUsername (i : Immich) : String :=
  match i.spec.postgres with
  | some p => if p.username = "" then "immich" else p.username
  | none => "immich"

/-- GetPostgresDatabase from immich_types.go: defaults to immich. -/
def getPostgresDatabase (i : Immich) : String :=
  match i.spec.postgres with
  | some p => if p.database = "" then "immich" else p.database
  | none => "immich"

/-- URL field of the machine-learning spec (zero value when the spec is
absent), as read directly by applyMLConfigMap. -/
def mlSpecURL (i : Immich) : String :=
  match i.spec.machineLearning with
  | some ml => ml.url
  | none => ""

/-- GetMachineLearningURL from immich_types.go: the built-in service URL
when the component is enabled, the external URL otherwise, empty when
neither applies. -/
def getMachineLearningURL (i : Immich) : String :=
  if isMachineLearningEnabled i then "http://" ++ i.name ++ "-machine-learning:3003"
  else mlSpecURL i

/-- Configuration document of the CR, traversing the optional spec.immich
pointer. -/
def configurationOf (i : Immich) : Option (List (String × Value)) :=
  match i.spec.immich with
  | some ic => ic.configuration
  | none => none

/-- Operator-derived machine-learning settings, translated from
applyMLConfigMap in internal/controller/config.go: enabled reflects the
built-in toggle or the presence of an external URL, and a nonempty URL is
published under urls as a one-element list. -/
def applyMLConfigMap (i : Immich) : List (String × Value) :=
  let mlURL := getMachineLearningURL i
  let mlEnabled := isMachineLearningEnabled i || mlSpecURL i ≠ ""
  let mlConfig :=
    if mlURL = "" then [("enabled", Value.bool mlEnabled)]
    else [("enabled", Value.bool mlEnabled), ("urls", Value.list [Value.str mlURL])]
  [("machineLearning", Value.map mlConfig)]

/-- configSpecToMap from internal/controller/config.go. The marshal and
unmarshal round trip through YAML is modelled as the identity on the
already-untyped configuration document; the function then removes any null
values that slipped through. -/
def configSpecToMap (doc : List (String × Value)) : List (String × Value) :=
  pruneEntries doc

/-- buildEffectiveConfigMap from internal/controller/config.go: start from
the operator-derived machine-learning settings and merge the user-provided
configuration over them, the user taking precedence. -/
def buildEffectiveConfigMap (i : Immich) : List (String × Value) :=
  let config := applyMLConfigMap i
  match configurationOf i with
  | none => config
  | some userDoc => deepMergeMap config (configSpecToMap userDoc)

/-- Null-freeness of a single map value: null is rejected, nested maps are
checked recursively, everything else passes. -/
def valueNullFree (v : Value) : Bool :=
  match v with
  | Value.null => false
  | Value.map m => noNullEntries m
  | _ => true

theorem noNullEntries_cons (k : String) (v : Value) (rest : List (String × Value)) :
    noNullEntries ((k, v) :: rest) = (valueNullFree v && noNullEntries rest) := by
  cases v <;> simp [noNullEntries, valueNullFree]

theorem valueNullFree_lookup (l : List (String × Value)) (k : String) (v : Value)
    (hl : noNullEntries l = true) (h : lookupKey l k = some v) :
    valueNullFree v = true := by
  induction l with
  | nil => simp [lookupKey] at h
  | cons kv rest ih =>
    obtain ⟨k1, v1⟩ := kv
    rw [noNullEntries_cons, Bool.and_eq_true] at hl
    obtain ⟨hv1, hrest⟩ := hl
    by_cases hk : k1 = k
    · rw [lookupKey, if_pos hk] at h
      injection h with h
      rw [← h]; exact hv1
    · rw [lookupKey, if_neg hk] at h
      exact ih hrest h

theorem noNull_setKey (l : List (String × Value)) (k : String) (v : Value)
    (hl : noNullEntries l = true) (hv : valueNullFree v = true) :
    noNullEntries (setKey l k v) = true := by
  induction l with
  | nil => simp [setKey, noNullEntries_cons, hv, noNullEntries]
  | cons kv rest ih =>
    obtain ⟨k1, w⟩ := kv
    rw [noNullEntries_cons, Bool.and_eq_true] at hl
    obtain ⟨hw, hrest⟩ := hl
    by_cases hk : k1 = k
    · simp only [setKey, if_pos hk]
      rw [noNullEntries_cons, hv, hrest]
      rfl
    · simp only [setKey, if_neg hk]
      rw [noNullEntries_cons, hw, ih hrest]
      rfl

/-- The deep merge of two null-free documents is null-free: nulls in the
override are skipped, and every value written into the result comes from
one of the two null-free inputs or from a recursive merge of two null-free
nested maps. -/
theorem noNull_deepMergeMap :
    ∀ (dst src : List (String × Value)), noNullEntries dst = true →
      noNullEntries src = true → noNullEntries (deepMergeMap dst src) = true := by
  intro dst src
  induction dst, src using deepMergeMap.induct with
  | case1 dst =>
    intro hdst _
    simpa [deepMergeMap] using hdst
  | case2 dst k rest ih =>
    intro hdst hsrc
    rw [noNullEntries_cons] at hsrc
    simp [valueNullFree] at hsrc
  | case3 dst k m rest dm hd ih1 ih2 =>
    intro hdst hsrc
    rw [noNullEntries_cons, Bool.and_eq_true] at hsrc
    obtain ⟨hm, hrest⟩ := hsrc
    simp only [valueNullFree] at hm
    have hdm : noNullEntries dm = true := by
      have := valueNullFree_lookup dst k (Value.map dm) hdst hd
      simpa [valueNullFree] using this
    simp only [deepMergeMap, hd]
    exact ih2 (noNull_setKey dst k _ hdst (by simpa [valueNullFree] using ih1 hdm hm)) hrest
  | case4 dst k m rest hnd ih =>
    intro hdst hsrc
    rw [noNullEntries_cons, Bool.and_eq_true] at hsrc
    obtain ⟨hm, hrest⟩ := hsrc
    simp only [valueNullFree] at hm
    cases hd : lookupKey dst k with
    | none =>
      simp only [deepMergeMap, hd]
      exact ih (noNull_setKey dst k _ hdst (by simpa [valueNullFree] using hm)) hrest
    | some w =>
      cases w with
      | map dm => exact absurd hd (by intro h0; exact hnd dm h0)
      | null =>
        simp only [deepMergeMap, hd]
        exact ih (noNull_setKey dst k _ hdst (by simpa [valueNullFree] using hm)) hrest
      | str s =>
        simp only [deepMergeMap, hd]
        exact ih (noNull_setKey dst k _ hdst (by simpa [valueNullFree] using hm)) hrest
      | int n =>
        simp only [deepMergeMap, hd]
        exact ih (noNull_setKey dst k _ hdst (by simpa [valueNullFree] using hm)) hrest
      | bool b =>
        simp only [deepMergeMap, hd]
        exact ih (noNull_setKey dst k _ hdst (by simpa [valueNullFree] using hm)) hrest
      | list es =>
        simp only [deepMergeMap, hd]
        exact ih (noNull_setKey dst k _ hdst (by simpa [valueNullFree] using hm)) hrest
  | case5 dst k v rest hnn hnm ih =>
    intro hdst hsrc
    rw [noNullEntries_cons, Bool.and_eq_true] at hsrc
    obtain ⟨hv, hrest⟩ := hsrc
    cases v with
    | null => exact absurd rfl hnn
    | map m => exact absurd rfl (hnm m)
    | str s =>
      simp only [deepMergeMap]
      exact ih (noNull_setKey dst k _ hdst hv) hrest
    | int n =>
      simp only [deepMergeMap]
      exact ih (noNull_setKey dst k _ hdst hv) hrest
    | bool b =>
      simp only [deepMergeMap]
      exact ih (noNull_setKey dst k _ hdst hv) hrest
    | list es =>
      simp only [deepMergeMap]
      exact ih (noNull_setKey dst k _ hdst hv) hrest

/-- Operator-derived machine-learning base settings hold no null. -/
theorem applyMLConfigMap_noNull (i : Immich) :
    noNullEntries (applyMLConfigMap i) = true := by
  unfold applyMLConfigMap
  by_cases h : getMachineLearningURL i = "" <;>
    simp [h, noNullEntries_cons, valueNullFree, noNullEntries]

/-- C4. The null-pruning pass (removeNullValues) recursively deletes every
key whose value is null and additionally deletes any nested map that
becomes empty as a result, at any depth: the pruned document holds no null
and no empty map anywhere, and per key it deletes null entries, recursively
prunes map entries (deleting them when they prune to empty), keeps every
other entry verbatim and invents no key. The pass is applied to the user
override document (via configSpecToMap) before it is merged with the
operator-derived base in buildEffectiveConfigMap, so a present-but-null
user field never appears in the rendered configuration: the effective
configuration is always null-free. -/
theorem claim4_null_pruning :
    (∀ l : List (String × Value), noNullEntries (pruneEntries l) = true) ∧
    (∀ l : List (String × Value), noEmptyMapEntries (pruneEntries l) = true) ∧
    (∀ (l : List (String × Value)) (k : String), entriesWF l = true →
      lookupKey (pruneEntries l) k =
        (match lookupKey l k with
         | some Value.null => none
         | some (Value.map mm) =>
           (match pruneEntries mm with
            | [] => none
            | m1 => some (Value.map m1))
         | some v => some v
         | none => none)) ∧
    (∀ (i : Immich) (userDoc : List (String × Value)), configurationOf i = some userDoc →
      buildEffectiveConfigMap i = deepMergeMap (applyMLConfigMap i) (pruneEntries userDoc)) ∧
    (∀ i : Immich, noNullEntries (buildEffectiveConfigMap i) = true) := by
  refine ⟨prune_noNull, prune_noEmpty,
    fun l k hwf => lookupKey_pruneEntries l k hwf, ?_, ?_⟩
  · intro i userDoc h
    unfold buildEffectiveConfigMap configSpecToMap
    rw [h]
  · intro i
    unfold buildEffectiveConfigMap configSpecToMap
    cases h : configurationOf i with
    | none => exact applyMLConfigMap_noNull i
    | some userDoc =>
      exact noNull_deepMergeMap _ _ (applyMLConfigMap_noNull i) (prune_noNull userDoc)

/-- C4 witness: the per-key characterization applied to a concrete
document — the null entry at key a is deleted by the pass. -/
theorem claim4_witness :
    lookupKey (pruneEntries [("a", Value.null), ("b", Value.int 1)]) "a" =
      (match lookupKey [("a", Value.null), ("b", Value.int 1)] "a" with
       | some Value.null => none
       | some (Value.map mm) =>
         (match pruneEntries mm with
          | [] => none
          | m1 => some (Value.map m1))
       | some v => some v
       | none => none) :=
  claim4_null_pruning.2.2.1 [("a", Value.null), ("b", Value.int 1)] "a" (by simp [entriesWF])

/-! Durable-object retention: the library PersistentVolumeClaim
(internal/controller/library.go) and the generated PostgreSQL credentials
Secret (internal/controller/postgres.go). The Kubernetes API is modelled by
the outcome of the get-by-name call and by a named store of objects; the
reconcilers return either an error or the object they create (none when the
existing object is reused). -/

/-- Label keys, from the constants in internal/controller/immich_controller.go. -/
def labelApp : String := "app.kubernetes.io/name"

/-- Label key of the instance label. -/
def labelInstance : String := "app.kubernetes.io/instance"

/-- Label key of the component label. -/
def labelComponent : String := "app.kubernetes.io/component"

/-- Label key of the managed-by label. -/
def labelManagedBy : String := "app.kubernetes.io/managed-by"

/-- Label key of the part-of label. -/
def labelPartOf : String := "app.kubernetes.io/part-of"

/-- getLabels from internal/controller/helpers.go: the standard label set of
every generated object. -/
def getLabels (i : Immich) (component : String) : List (String × String) :=
  [(labelApp, "immich"),
   (labelInstance, i.name),
   (labelComponent, component),
   (labelManagedBy, "immich-operator"),
   (labelPartOf, "immich")]

/-- getSelectorLabels from internal/controller/helpers.go: the narrower
subset used for Deployment and Service selectors. -/
def getSelectorLabels (i : Immich) (component : String) : List (String × String) :=
  [(labelApp, "immich"),
   (labelInstance, i.name),
   (labelComponent, component)]

/-- Owner reference of a child object back to its parent CR. -/
structure OwnerReference where
  apiVersion : String
  kind : String
  name : String
  controller : Bool
  blockOwnerDeletion : Bool

/-- Spec of a PersistentVolumeClaim as built by reconcileLibraryPVC. -/
structure PVCSpec where
  accessModes : List String
  storageClassName : Option String
  storageRequest : String

/-- A PersistentVolumeClaim object as created by the reconciler. -/
structure PVCObject where
  labels : List (String × String)
  ownerReferences : List OwnerReference
  spec : PVCSpec

/-- A Secret object as created by the credentials reconciler. -/
structure SecretObject where
  labels : List (String × String)
  ownerReferences : List OwnerReference
  data : List (String × String)

/-- Outcome of a get-by-name call against the cluster: the object, a
not-found error, or any other API error. -/
inductive GetOutcome (α : Type) where
  | found (obj : α)
  | notFound
  | apiError (msg : String)

/-- Library PVC built by reconcileLibraryPVC in
internal/controller/library.go when the claim is absent: labels from
getLabels, the spec from the CR accessors, and deliberately no owner
reference. -/
def libraryPVCObject (i : Immich) : PVCObject :=
  { labels := getLabels i "library"
    ownerReferences := []
    spec :=
      { accessModes := getLibraryAccessModes i
        storageClassName := getLibraryStorageClass i
        storageRequest := getLibrarySize i } }

/-- reconcileLibraryPVC from internal/controller/library.go: look the claim
up by name; when it exists, reuse it untouched; a non-not-found lookup
error is propagated; when it is absent, create it once without an owner
reference. The result carries the created object, none when nothing was
created. -/
def reconcileLibraryPVC (i : Immich) (get : GetOutcome PVCObject) :
    Except String (Option PVCObject) :=
  match get with
  | GetOutcome.found _ => Except.ok none
  | GetOutcome.apiError e => Except.error e
  | GetOutcome.notFound => Except.ok (some (libraryPVCObject i))

/-- Character set of generateRandomPassword in internal/controller/utils.go. -/
def passwordCharset : List Char :=
  "abcdefghijklmnopqrstuvwxyzABCDEFGHIJKLMNOPQRSTUVWXYZ0123456789".toList

/-- generateRandomPassword from internal/controller/utils.go: draw length
random bytes and map each one into the alphanumeric character set by
reduction modulo the set size. The crypto/rand byte source is modelled as
the function randByte; the read is modelled as never failing. -/
def generateRandomPassword (length : Nat) (randByte : Nat → Nat) : String :=
  String.mk ((List.range length).map
    (fun idx => passwordCharset.getD (randByte idx % passwordCharset.length) 'a'))

/-- Zero value of PostgresSpec, as produced by ptr.Deref of a nil pointer. -/
def emptyPostgresSpec : PostgresSpec :=
  { enabled := none, image := "", host := "", username := "", database := ""
    passwordSecretRef := none, urlSecretRef := none }

/-- Credentials secret built by reconcilePostgresCredentials in
internal/controller/postgres.go when generating: the random password
together with the derived username and database name, and deliberately no
owner reference. -/
def postgresCredentialsSecret (i : Immich) (randByte : Nat → Nat) : SecretObject :=
  { labels := getLabels i "postgres"
    ownerReferences := []
    data :=
      [("password", generateRandomPassword 32 randByte),
       ("username", getPostgresUsername i),
       ("database", getPostgresDatabase i)] }

/-- reconcilePostgresCredentials from internal/controller/postgres.go: skip
generation entirely when the user supplied an explicit password secret
reference; otherwise look the generated secret up by name, reuse it
untouched when it exists, propagate any non-not-found lookup error, and
when it is absent generate the credentials once, without an owner
reference. -/
def reconcilePostgresCredentials (i : Immich) (get : GetOutcome SecretObject)
    (randByte : Nat → Nat) : Except String (Option SecretObject) :=
  let postgresSpec := i.spec.postgres.getD emptyPostgresSpec
  if postgresSpec.passwordSecretRef.isSome then Except.ok none
  else
    match get with
    | GetOutcome.found _ => Except.ok none
    | GetOutcome.apiError e => Except.error e
    | GetOutcome.notFound => Except.ok (some (postgresCredentialsSecret i randByte))

/-- Name under which the generated credentials secret is created. -/
def postgresCredentialsSecretName (i : Immich) : String :=
  i.name ++ "-postgres-credentials"

/-- Lookup of a named object in a store. -/
def lookupName {α : Type} : List (String × α) → String → Option α
  | [], _ => none
  | (n, o) :: rest, name => if n = name then some o else lookupName rest name

/-- Get-by-name against a store of named objects: found or not found. -/
def getFromStore {α : Type} (store : List (String × α)) (name : String) : GetOutcome α :=
  match lookupName store name with
  | some o => GetOutcome.found o
  | none => GetOutcome.notFound

/-- One reconciliation pass of the library PVC against a cluster store:
run reconcileLibraryPVC on the lookup outcome and add the created object
to the store, if any. -/
def runLibraryPVCPass (i : Immich) (store : List (String × PVCObject)) :
    Except String (List (String × PVCObject)) :=
  match reconcileLibraryPVC i (getFromStore store (getLibraryPVCName i)) with
  | Except.error e => Except.error e
  | Except.ok none => Except.ok store
  | Except.ok (some pvc) => Except.ok ((getLibraryPVCName i, pvc) :: store)

/-- One reconciliation pass of the postgres credentials against a cluster
store. -/
def runPostgresCredentialsPass (i : Immich) (randByte : Nat → Nat)
    (store : List (String × SecretObject)) :
    Except String (List (String × SecretObject)) :=
  match reconcilePostgresCredentials i
      (getFromStore store (postgresCredentialsSecretName i)) randByte with
  | Except.error e => Except.error e
  | Except.ok none => Except.ok store
  | Except.ok (some secret) =>
    Except.ok ((postgresCredentialsSecretName i, secret) :: store)

theorem generateRandomPassword_length (n : Nat) (randByte : Nat → Nat) :
    (generateRandomPassword n randByte).length = n := by
  simp [generateRandomPassword, String.length]

theorem generateRandomPassword_alnum (n : Nat) (randByte : Nat → Nat) :
    ∀ c ∈ (generateRandomPassword n randByte).toList, c ∈ passwordCharset := by
  intro c hc
  simp only [generateRandomPassword, String.toList, String.mk] at hc
  simp only [List.mem_map, List.mem_range] at hc
  obtain ⟨idx, _, hmap⟩ := hc
  have hpos : 0 < passwordCharset.length := by decide
  have hlt : randByte idx % passwordCharset.length < passwordCharset.length :=
    Nat.mod_lt _ hpos
  rw [← hmap, List.getD_eq_getElem _ _ hlt]
  exact List.getElem_mem hlt

theorem runLibraryPVCPass_stable (i : Immich) (store store1 : List (String × PVCObject))
    (h : runLibraryPVCPass i store = Except.ok store1) :
    runLibraryPVCPass i store1 = Except.ok store1 := by
  unfold runLibraryPVCPass reconcileLibraryPVC getFromStore at h ⊢
  cases hl : lookupName store (getLibraryPVCName i) with
  | some obj =>
    rw [hl] at h
    simp only [Except.ok.injEq] at h
    subst h
    rw [hl]
  | none =>
    rw [hl] at h
    simp only [Except.ok.injEq] at h
    subst h
    simp [lookupName]

theorem runPostgresCredentialsPass_stable (i : Immich) (r1 r2 : Nat → Nat)
    (store store1 : List (String × SecretObject))
    (h : runPostgresCredentialsPass i r1 store = Except.ok store1) :
    runPostgresCredentialsPass i r2 store1 = Except.ok store1 := by
  unfold runPostgresCredentialsPass reconcilePostgresCredentials getFromStore at h ⊢
  by_cases href : (i.spec.postgres.getD emptyPostgresSpec).passwordSecretRef.isSome = true
  · rw [if_pos href] at h
    simp only [Except.ok.injEq] at h
    subst h
    rw [if_pos href]
  · rw [if_neg href] at h
    cases hl : lookupName store (postgresCredentialsSecretName i) with
    | some obj =>
      rw [hl] at h
      simp only [Except.ok.injEq] at h
      subst h
      rw [if_neg href, hl]
    | none =>
      rw [hl] at h
      simp only [Except.ok.injEq] at h
      subst h
      rw [if_neg href]
      simp [lookupName]

/-- C1. Durable-object retention: before creating either durable object,
the reconcilers check existence by name. When the library PVC is present
the pass leaves the store completely unchanged and succeeds; when it is
absent the PVC is created exactly once, with no owner reference, and a
subsequent pass over the resulting store changes nothing (the object is
reused verbatim, so it also survives CR deletion and recreation since
nothing ever garbage-collects or overwrites it). The generated PostgreSQL
credentials Secret behaves the same way. -/
theorem claim1_durable_retention :
    (∀ (i : Immich) (store : List (String × PVCObject)) (obj : PVCObject),
      lookupName store (getLibraryPVCName i) = some obj →
      runLibraryPVCPass i store = Except.ok store) ∧
    (∀ (i : Immich) (store : List (String × PVCObject)),
      lookupName store (getLibraryPVCName i) = none →
      runLibraryPVCPass i store
        = Except.ok ((getLibraryPVCName i, libraryPVCObject i) :: store) ∧
      (libraryPVCObject i).ownerReferences = []) ∧
    (∀ (i : Immich) (store store1 : List (String × PVCObject)),
      runLibraryPVCPass i store = Except.ok store1 →
      runLibraryPVCPass i store1 = Except.ok store1) ∧
    (∀ (i : Immich) (randByte : Nat → Nat) (store : List (String × SecretObject))
      (obj : SecretObject),
      lookupName store (postgresCredentialsSecretName i) = some obj →
      runPostgresCredentialsPass i randByte store = Except.ok store) ∧
    (∀ (i : Immich) (randByte : Nat → Nat) (store : List (String × SecretObject)),
      (i.spec.postgres.getD emptyPostgresSpec).passwordSecretRef = none →
      lookupName store (postgresCredentialsSecretName i) = none →
      runPostgresCredentialsPass i randByte store
        = Except.ok ((postgresCredentialsSecretName i,
            postgresCredentialsSecret i randByte) :: store) ∧
      (postgresCredentialsSecret i randByte).ownerReferences = []) ∧
    (∀ (i : Immich) (r1 r2 : Nat → Nat) (store store1 : List (String × SecretObject)),
      runPostgresCredentialsPass i r1 store = Except.ok store1 →
      runPostgresCredentialsPass i r2 store1 = Except.ok store1) := by
  refine ⟨?_, ?_, runLibraryPVCPass_stable, ?_, ?_, runPostgresCredentialsPass_stable⟩
  · intro i store obj h
    unfold runLibraryPVCPass reconcileLibraryPVC getFromStore
    rw [h]
  · intro i store h
    unfold runLibraryPVCPass reconcileLibraryPVC getFromStore
    rw [h]
    exact ⟨rfl, rfl⟩
  · intro i randByte store obj h
    unfold runPostgresCredentialsPass reconcilePostgresCredentials getFromStore
    by_cases href : (i.spec.postgres.getD emptyPostgresSpec).passwordSecretRef.isSome = true
    · rw [if_pos href]
    · rw [if_neg href, h]
  · intro i randByte store href h
    refine ⟨?_, rfl⟩
    unfold runPostgresCredentialsPass reconcilePostgresCredentials getFromStore
    rw [h]
    simp [href]

/-- Default-valued Immich CR used by concrete witnesses: name demo, every
optional spec section absent. -/
def demoCR : Immich :=
  { name := "demo"
    spec :=
      { server := none, machineLearning := none, valkey := none
        postgres := none, immich := none } }

/-- C1 witness: on a store already holding the demo library PVC, the pass
returns the store unchanged. -/
theorem claim1_witness :
    runLibraryPVCPass demoCR [(getLibraryPVCName demoCR, libraryPVCObject demoCR)]
      = Except.ok [(getLibraryPVCName demoCR, libraryPVCObject demoCR)] :=
  claim1_durable_retention.1 demoCR _ (libraryPVCObject demoCR) (by simp [lookupName])

/-- C2. Database credential generation: with an explicit password secret
reference no generation happens at all, whatever the lookup outcome; when
the credentials secret already exists the pass leaves the store unchanged;
otherwise the secret is created holding a random password of exactly 32
characters, every character alphanumeric, stored together with the derived
username and database name; and a second pass over the resulting store,
with an arbitrary fresh randomness source, changes nothing — the existence
check short-circuits, so the password is never regenerated. -/
theorem claim2_credentials_generation :
    (∀ (i : Immich) (get : GetOutcome SecretObject) (randByte : Nat → Nat)
      (ref : SecretKeySelector),
      (i.spec.postgres.getD emptyPostgresSpec).passwordSecretRef = some ref →
      reconcilePostgresCredentials i get randByte = Except.ok none) ∧
    (∀ (i : Immich) (randByte : Nat → Nat) (store : List (String × SecretObject))
      (obj : SecretObject),
      lookupName store (postgresCredentialsSecretName i) = some obj →
      runPostgresCredentialsPass i randByte store = Except.ok store) ∧
    (∀ (i : Immich) (randByte : Nat → Nat) (store : List (String × SecretObject)),
      (i.spec.postgres.getD emptyPostgresSpec).passwordSecretRef = none →
      lookupName store (postgresCredentialsSecretName i) = none →
      runPostgresCredentialsPass i randByte store
        = Except.ok ((postgresCredentialsSecretName i,
            postgresCredentialsSecret i randByte) :: store) ∧
      (postgresCredentialsSecret i randByte).data
        = [("password", generateRandomPassword 32 randByte),
           ("username", getPostgresUsername i),
           ("database", getPostgresDatabase i)] ∧
      (generateRandomPassword 32 randByte).length = 32 ∧
      (∀ c ∈ (generateRandomPassword 32 randByte).toList, c ∈ passwordCharset)) ∧
    (∀ (i : Immich) (r1 r2 : Nat → Nat) (store store1 : List (String × SecretObject)),
      runPostgresCredentialsPass i r1 store = Except.ok store1 →
      runPostgresCredentialsPass i r2 store1 = Except.ok store1) := by
  refine ⟨?_, ?_, ?_, runPostgresCredentialsPass_stable⟩
  · intro i get randByte ref href
    unfold reconcilePostgresCredentials
    simp [href]
  · intro i randByte store obj h
    unfold runPostgresCredentialsPass reconcilePostgresCredentials getFromStore
    by_cases href : (i.spec.postgres.getD emptyPostgresSpec).passwordSecretRef.isSome = true
    · rw [if_pos href]
    · rw [if_neg href, h]
  · intro i randByte store href h
    refine ⟨?_, rfl, generateRandomPassword_length 32 randByte,
      generateRandomPassword_alnum 32 randByte⟩
    unfold runPostgresCredentialsPass reconcilePostgresCredentials getFromStore
    rw [h]
    simp [href]

/-- C2 witness: generation on an empty store for the demo CR creates the
secret with a 32-character alphanumeric password and the derived username
and database name. -/
theorem claim2_witness :
    runPostgresCredentialsPass demoCR (fun _ => 7) []
      = Except.ok [(postgresCredentialsSecretName demoCR,
          postgresCredentialsSecret demoCR (fun _ => 7))] ∧
    (postgresCredentialsSecret demoCR (fun _ => 7)).data
      = [("password", generateRandomPassword 32 (fun _ => 7)),
         ("username", getPostgresUsername demoCR),
         ("database", getPostgresDatabase demoCR)] ∧
    (generateRandomPassword 32 (fun _ => 7)).length = 32 ∧
    (∀ c ∈ (generateRandomPassword 32 (fun _ => 7)).toList, c ∈ passwordCharset) :=
  claim2_credentials_generation.2.2.1 demoCR (fun _ => 7) [] (by rfl) (by rfl)

/-! Label selectors: getSelectorLabels from internal/controller/helpers.go
and the pod-template labelling of reconcileServerDeployment from
internal/controller/server.go. -/

/-- Assignment in a named store (the Go map assignment). -/
def setName {α : Type} : List (String × α) → String → α → List (String × α)
  | [], key, v => [(key, v)]
  | (k, w) :: rest, key, v =>
    if k = key then (key, v) :: rest else (k, w) :: setName rest key v

theorem lookupName_setName_ne {α : Type} (m : List (String × α)) (k k1 : String) (v : α)
    (h : k1 ≠ k) : lookupName (setName m k v) k1 = lookupName m k1 := by
  have h1 : k ≠ k1 := Ne.symm h
  induction m with
  | nil => simp [setName, lookupName, h1]
  | cons kv rest ih =>
    obtain ⟨k2, w⟩ := kv
    by_cases h2 : k2 = k
    · subst h2
      simp [setName, lookupName, h1, Ne.symm h1]
    · by_cases h3 : k2 = k1 <;> simp [setName, lookupName, h, h2, h3, ih]

/-- mergeMaps from internal/controller/helpers.go: copy the base map, then
write every override entry over it — the override wins on key collisions. -/
def mergeMaps (base override : List (String × String)) : List (String × String) :=
  override.foldl (fun acc kv => setName acc kv.1 kv.2) base

theorem lookupName_mergeMaps_not_overridden (override : List (String × String)) :
    ∀ (base : List (String × String)) (k : String),
      (∀ kv ∈ override, kv.1 ≠ k) →
      lookupName (mergeMaps base override) k = lookupName base k := by
  induction override with
  | nil => intro base k _; rfl
  | cons kv rest ih =>
    intro base k h
    obtain ⟨k1, v1⟩ := kv
    have h1 : k1 ≠ k := h (k1, v1) (List.mem_cons_self _ _)
    have hrest : ∀ kv1 ∈ rest, kv1.1 ≠ k := fun kv1 hm => h kv1 (List.mem_cons_of_mem _ hm)
    unfold mergeMaps at ih ⊢
    rw [List.foldl_cons, ih (setName base k1 v1) k hrest,
      lookupName_setName_ne base k1 k v1 (Ne.symm h1)]

/-- Pod labels of the server spec, the zero value when the spec is absent. -/
def serverPodLabels (i : Immich) : List (String × String) :=
  match i.spec.server with
  | some s => s.podLabels
  | none => []

/-- Selector of the server Deployment, from reconcileServerDeployment in
internal/controller/server.go: the fixed selector subset only. -/
def serverDeploymentSelector (i : Immich) : List (String × String) :=
  getSelectorLabels i "server"

/-- Pod template labels of the server Deployment, from
reconcileServerDeployment in internal/controller/server.go: the standard
labels merged with the user pod labels, the user winning. -/
def serverDeploymentTemplateLabels (i : Immich) : List (String × String) :=
  mergeMaps (getLabels i "server") (serverPodLabels i)

/-- Selector matching: every selector entry appears with the same value in
the labels. -/
def selectorMatches (sel labels : List (String × String)) : Bool :=
  sel.all (fun kv => lookupName labels kv.1 == some kv.2)

/-- A CR whose user pod labels override the component selector label. -/
def serverPodLabelCollisionCR : Immich :=
  { name := "demo"
    spec :=
      { server := some { enabled := none, image := "", podLabels := [(labelComponent, "x")] }
        machineLearning := none, valkey := none, postgres := none, immich := none } }

/-- C7 counterexample. A user pod label whose key is one of the selector
keys (here app.kubernetes.io/component) does not change the computed
selector, but it does override the pod template label — mergeMaps lets the
user value win — so the selector no longer matches the generated pod
template labels. The claim that user-supplied pod labels never break the
selector matching therefore fails for maps that reuse a selector key. -/
theorem claim7_counterexample :
    serverDeploymentSelector serverPodLabelCollisionCR = serverDeploymentSelector demoCR ∧
    selectorMatches (serverDeploymentSelector serverPodLabelCollisionCR)
      (serverDeploymentTemplateLabels serverPodLabelCollisionCR) = false :=
  ⟨by rfl, by decide⟩

/-- C7 (amended). The selector labels computed for the server Deployment
are exactly the fixed subset of name, instance and component, and are
identical across any two runs on CRs with the same name, whatever the user
pod labels (the selector never reads them); and whenever the user pod
labels do not reuse one of the selector keys — truly extra labels — the
selector matches the generated pod template labels. A user pod label that
reuses a selector key still cannot change the selector, but it does break
the matching, which is the correction the counterexample forces. -/
theorem claim7_selector_stability_amended :
    (∀ i : Immich, serverDeploymentSelector i
      = [(labelApp, "immich"), (labelInstance, i.name), (labelComponent, "server")]) ∧
    (∀ i1 i2 : Immich, i1.name = i2.name →
      serverDeploymentSelector i1 = serverDeploymentSelector i2) ∧
    (∀ i : Immich,
      (∀ kv ∈ serverPodLabels i, lookupName (serverDeploymentSelector i) kv.1 = none) →
      selectorMatches (serverDeploymentSelector i) (serverDeploymentTemplateLabels i)
        = true) := by
  refine ⟨fun i => rfl, ?_, ?_⟩
  · intro i1 i2 h
    unfold serverDeploymentSelector getSelectorLabels
    rw [h]
  · intro i h
    have hA : ∀ kv ∈ serverPodLabels i, kv.1 ≠ labelApp := by
      intro kv hm heq
      have h1 := h kv hm
      rw [heq] at h1
      simp [serverDeploymentSelector, getSelectorLabels, lookupName] at h1
    have hI : ∀ kv ∈ serverPodLabels i, kv.1 ≠ labelInstance := by
      intro kv hm heq
      have h1 := h kv hm
      rw [heq] at h1
      simp [serverDeploymentSelector, getSelectorLabels, lookupName,
        labelApp, labelInstance] at h1
    have hC : ∀ kv ∈ serverPodLabels i, kv.1 ≠ labelComponent := by
      intro kv hm heq
      have h1 := h kv hm
      rw [heq] at h1
      simp [serverDeploymentSelector, getSelectorLabels, lookupName,
        labelApp, labelInstance, labelComponent] at h1
    unfold selectorMatches serverDeploymentSelector getSelectorLabels
      serverDeploymentTemplateLabels
    simp only [List.all_cons, List.all_nil, Bool.and_eq_true, beq_iff_eq, Bool.and_true]
    refine ⟨?_, ?_, ?_⟩
    · rw [lookupName_mergeMaps_not_overridden _ _ _ hA]
      simp [getLabels, lookupName]
    · rw [lookupName_mergeMaps_not_overridden _ _ _ hI]
      simp [getLabels, lookupName, labelApp, labelInstance]
    · rw [lookupName_mergeMaps_not_overridden _ _ _ hC]
      simp [getLabels, lookupName, labelApp, labelInstance, labelComponent]

/-- C7 witness: on a CR whose pod labels are genuinely extra (the key
team is none of the selector keys), the selector matches the generated
template labels. -/
theorem claim7_witness :
    selectorMatches
      (serverDeploymentSelector
        { name := "demo"
          spec :=
            { server := some { enabled := none, image := "", podLabels := [("team", "media")] }
              machineLearning := none, valkey := none, postgres := none, immich := none } })
      (serverDeploymentTemplateLabels
        { name := "demo"
          spec :=
            { server := some { enabled := none, image := "", podLabels := [("team", "media")] }
              machineLearning := none, valkey := none, postgres := none, immich := none } })
      = true :=
  claim7_selector_stability_amended.2.2
    { name := "demo"
      spec :=
        { server := some { enabled := none, image := "", podLabels := [("team", "media")] }
          machineLearning := none, valkey := none, postgres := none, immich := none } }
    (by decide)

/-! Validation, from validateImages in the controller package (the revision
whose behaviour the validation unit tests pin: built-in machine learning
may be disabled without an external URL). Error messages are built the way
fmt.Errorf renders them, with a Go string slice printed as the elements
between brackets, separated by spaces. -/

/-- Name of the server default-image environment variable, from
api/v1alpha1/immich_types.go. -/
def EnvRelatedImageImmich : String := "RELATED_IMAGE_immich"

/-- Name of the machine-learning default-image environment variable. -/
def EnvRelatedImageMachineLearning : String := "RELATED_IMAGE_machineLearning"

/-- Name of the valkey default-image environment variable. -/
def EnvRelatedImageValkey : String := "RELATED_IMAGE_valkey"

/-- Name of the postgres default-image environment variable. -/
def EnvRelatedImagePostgres : String := "RELATED_IMAGE_postgres"

/-- Missing-image item for the server, as formatted by validateImages. -/
def serverMissingItem : String :=
  "server (set spec.server.image or " ++ EnvRelatedImageImmich ++ " env var)"

/-- Missing-image item for machine learning. -/
def mlMissingItem : String :=
  "machine-learning (set spec.machineLearning.image or "
    ++ EnvRelatedImageMachineLearning ++ " env var)"

/-- Missing-image item for valkey. -/
def valkeyMissingItem : String :=
  "valkey (set spec.valkey.image or " ++ EnvRelatedImageValkey ++ " env var)"

/-- Missing-image item for postgres. -/
def postgresMissingItem : String :=
  "postgres (set spec.postgres.image or " ++ EnvRelatedImagePostgres ++ " env var)"

/-- Configuration-error item for a missing external postgres host. -/
def postgresHostItem : String :=
  "spec.postgres.host is required when spec.postgres.enabled=false"

/-- Configuration-error item for missing external postgres credentials. -/
def postgresPasswordItem : String :=
  "spec.postgres.password or spec.postgres.passwordSecretRef is required when spec.postgres.enabled=false"

/-- Configuration-error item for a missing external valkey host. -/
def valkeyHostItem : String :=
  "spec.valkey.host is required when spec.valkey.enabled=false"

/-- Condition of the first external-postgres check in validateImages: the
postgres section is nil or its host is empty. -/
def postgresNilOrNoHost (i : Immich) : Bool :=
  match i.spec.postgres with
  | none => true
  | some p => p.host == ""

/-- Condition of the second external-postgres check in validateImages: the
postgres section is nil or carries neither a password secret reference nor
a URL secret reference. -/
def postgresNilOrNoPasswordRef (i : Immich) : Bool :=
  match i.spec.postgres with
  | none => true
  | some p => p.passwordSecretRef.isNone && p.urlSecretRef.isNone

/-- Condition of the external-valkey check in validateImages: the valkey
section is nil or its host is empty. -/
def valkeyNilOrNoHost (i : Immich) : Bool :=
  match i.spec.valkey with
  | none => true
  | some v => v.host == ""

/-- Missing-image items collected by validateImages, in source order:
server, machine learning, valkey, postgres, each only when the component is
enabled and its image resolves to the empty string. -/
def missingImagesList (env : Env) (i : Immich) : List String :=
  (if isServerEnabled i && (getServerImage env i == "") then [serverMissingItem] else [])
    ++ (if isMachineLearningEnabled i && (getMachineLearningImage env i == "")
        then [mlMissingItem] else [])
    ++ (if isValkeyEnabled i && (getValkeyImage env i == "") then [valkeyMissingItem] else [])
    ++ (if isPostgresEnabled i && (getPostgresImage env i == "")
        then [postgresMissingItem] else [])

/-- Configuration-error items collected by validateImages, in source order.
Machine learning contributes none: disabling it without an external URL is
deliberately valid. -/
def configErrorsList (i : Immich) : List String :=
  (if !(isPostgresEnabled i) then
    (if postgresNilOrNoHost i then [postgresHostItem] else [])
      ++ (if postgresNilOrNoPasswordRef i then [postgresPasswordItem] else [])
   else [])
    ++ (if !(isValkeyEnabled i) then
         (if valkeyNilOrNoHost i then [valkeyHostItem] else [])
        else [])

/-- Rendering of a Go string slice by the fmt package: the elements between
brackets, separated by single spaces. -/
def goStringSliceFmt (l : List String) : String :=
  "[" ++ String.intercalate " " l ++ "]"

/-- validateImages from the controller package: collect the missing-image
items and the configuration-error items, then return the missing-images
error when any image is missing, else the configuration error when any
configuration check failed, else success (none). -/
def validateImages (env : Env) (i : Immich) : Option String :=
  let missingImages := missingImagesList env i
  let configErrors := configErrorsList i
  if missingImages ≠ [] then
    some ("missing required images: " ++ goStringSliceFmt missingImages)
  else if configErrors ≠ [] then
    some ("configuration errors: " ++ goStringSliceFmt configErrors)
  else none

/-- Substring test on character lists: the needle occurs somewhere in the
haystack. -/
def charsHasSub : List Char → List Char → Bool
  | hay, needle =>
    (hay.take needle.length == needle) ||
      (match hay with
       | [] => false
       | _ :: rest => charsHasSub rest needle)

/-- Substring test on strings. -/
def strContains (hay needle : String) : Bool :=
  charsHasSub hay.toList needle.toList

theorem mem_ite_singleton {α : Type} (a x : α) (c : Prop) [Decidable c]
    (h : a ∈ (if c then [x] else [])) : a = x := by
  split at h
  · simpa using h
  · simp at h

/-- Environment with no default image configured. -/
def envNoDefaults : Env :=
  { relatedImageImmich := "", relatedImageMachineLearning := ""
    relatedImageValkey := "", relatedImagePostgres := "" }

/-- Environment with every default image configured. -/
def envAllImages : Env :=
  { relatedImageImmich := "srv-img", relatedImageMachineLearning := "ml-img"
    relatedImageValkey := "valkey-img", relatedImagePostgres := "pg-img" }

/-- CR with an unresolvable server image (no spec image, checked against an
environment without defaults) and the built-in database disabled without an
external host. -/
def c5CR : Immich :=
  { name := "demo"
    spec :=
      { server := none, machineLearning := none, valkey := none
        postgres := some { enabled := some false, image := "", host := "", username := ""
                           database := "", passwordSecretRef := none, urlSecretRef := none }
        immich := none } }

set_option maxRecDepth 40000 in
/-- C5 counterexample. For a spec missing both the server image and the
external database host, validateImages returns only the missing-images
error: the message mentions the server image but does not mention
spec.postgres.host at all, even though the missing-host configuration error
was collected — the two error categories are returned one at a time, images
first, not combined. -/
theorem claim5_counterexample :
    validateImages envNoDefaults c5CR
      = some ("missing required images: "
          ++ goStringSliceFmt (missingImagesList envNoDefaults c5CR)) ∧
    strContains ("missing required images: "
      ++ goStringSliceFmt (missingImagesList envNoDefaults c5CR)) "spec.postgres.host"
      = false ∧
    strContains ("missing required images: "
      ++ goStringSliceFmt (missingImagesList envNoDefaults c5CR)) "spec.server.image"
      = true ∧
    postgresHostItem ∈ configErrorsList c5CR :=
  ⟨by rfl, by decide, by decide, by decide⟩

set_option maxRecDepth 40000 in
/-- C5 (amended). For every spec whose server image is unresolvable and
whose built-in database is disabled with no external host: validateImages
returns the single missing-images error; that error lists the missing
server image; the missing spec.postgres.host problem is collected among the
configuration errors but is not part of the returned message — no
missing-image item ever mentions spec.postgres.host. Configuration errors
are only returned once no image is missing: missing-image errors take
precedence. -/
theorem claim5_validation_amended :
    (∀ (env : Env) (i : Immich),
      isServerEnabled i = true → getServerImage env i = "" →
      isPostgresEnabled i = false → postgresNilOrNoHost i = true →
      validateImages env i
        = some ("missing required images: " ++ goStringSliceFmt (missingImagesList env i)) ∧
      serverMissingItem ∈ missingImagesList env i ∧
      postgresHostItem ∈ configErrorsList i ∧
      (∀ item ∈ missingImagesList env i, strContains item "spec.postgres.host" = false)) ∧
    (∀ (env : Env) (i : Immich), missingImagesList env i = [] → configErrorsList i ≠ [] →
      validateImages env i
        = some ("configuration errors: " ++ goStringSliceFmt (configErrorsList i))) := by
  constructor
  · intro env i hs himg hp hh
    have hmem : serverMissingItem ∈ missingImagesList env i := by
      simp [missingImagesList, hs, himg]
    have hne : missingImagesList env i ≠ [] := List.ne_nil_of_mem hmem
    refine ⟨by simp [validateImages, hne], hmem, by simp [configErrorsList, hp, hh], ?_⟩
    intro item hm
    simp only [missingImagesList, List.mem_append] at hm
    rcases hm with ((h1 | h2) | h3) | h4
    · rw [mem_ite_singleton _ _ _ h1]; decide
    · rw [mem_ite_singleton _ _ _ h2]; decide
    · rw [mem_ite_singleton _ _ _ h3]; decide
    · rw [mem_ite_singleton _ _ _ h4]; decide
  · intro env i hm hc
    simp [validateImages, hm, hc]

/-- C5 witness: the amended theorem applied to the concrete spec of the
counterexample. -/
theorem claim5_witness :
    validateImages envNoDefaults c5CR
      = some ("missing required images: "
          ++ goStringSliceFmt (missingImagesList envNoDefaults c5CR)) ∧
    serverMissingItem ∈ missingImagesList envNoDefaults c5CR ∧
    postgresHostItem ∈ configErrorsList c5CR ∧
    (∀ item ∈ missingImagesList envNoDefaults c5CR,
      strContains item "spec.postgres.host" = false) :=
  claim5_validation_amended.1 envNoDefaults c5CR (by rfl) (by rfl) (by rfl) (by rfl)

/-- Machine-learning spec disabled without an external URL. -/
def mlDisabledSpec : MachineLearningSpec :=
  { enabled := some false, image := "", url := "" }

/-- CR with the built-in machine learning disabled and no external URL,
everything else defaulted (images come from the environment). -/
def mlDisabledNoURLCR : Immich :=
  { name := "demo"
    spec :=
      { server := none
        machineLearning := some mlDisabledSpec
        valkey := none, postgres := none, immich := none } }

/-- CR with the built-in valkey disabled and no external host. -/
def valkeyDisabledNoHostCR : Immich :=
  { name := "demo"
    spec :=
      { server := none, machineLearning := none
        valkey := some { enabled := some false, image := "", host := "" }
        postgres := none, immich := none } }

/-- CR with the built-in postgres disabled and no external host. -/
def postgresDisabledNoHostCR : Immich :=
  { name := "demo"
    spec :=
      { server := none, machineLearning := none, valkey := none
        postgres := some { enabled := some false, image := "", host := "", username := ""
                           database := "", passwordSecretRef := none, urlSecretRef := none }
        immich := none } }

set_option maxRecDepth 40000 in
/-- C9. External-ML relaxation: validateImages never reads the external
machine-learning URL (replacing it changes nothing), a disabled built-in
machine learning contributes no missing-image item, and no configuration
error ever mentions spec.machineLearning.url, so a spec with machine
learning disabled and no URL validates successfully when everything else is
configured — in contrast with the stricter validation for the database and
the cache, where disabling the built-in without an external host is an
error. -/
theorem claim9_ml_relaxation :
    (∀ (env : Env) (i : Immich) (ml : MachineLearningSpec) (u : String),
      i.spec.machineLearning = some ml →
      validateImages env
        { i with spec := { i.spec with machineLearning := some { ml with url := u } } }
        = validateImages env i) ∧
    (∀ (env : Env) (i : Immich), isMachineLearningEnabled i = false →
      mlMissingItem ∉ missingImagesList env i) ∧
    (∀ (i : Immich) (item : String), item ∈ configErrorsList i →
      strContains item "spec.machineLearning.url" = false) ∧
    validateImages envAllImages mlDisabledNoURLCR = none ∧
    validateImages envAllImages valkeyDisabledNoHostCR ≠ none ∧
    validateImages envAllImages postgresDisabledNoHostCR ≠ none := by
  refine ⟨?_, ?_, ?_, by rfl, by decide, by decide⟩
  · intro env i ml u hml
    obtain ⟨nm, spec⟩ := i
    obtain ⟨srv, mlo, valk, pg, imc⟩ := spec
    simp only [] at hml
    subst hml
    obtain ⟨en, img, url⟩ := ml
    rfl
  · intro env i hml hmem
    simp only [missingImagesList, List.mem_append] at hmem
    rcases hmem with ((h1 | h2) | h3) | h4
    · exact absurd (mem_ite_singleton _ _ _ h1) (by decide)
    · rw [hml] at h2
      simp at h2
    · exact absurd (mem_ite_singleton _ _ _ h3) (by decide)
    · exact absurd (mem_ite_singleton _ _ _ h4) (by decide)
  · intro i item hmem
    simp only [configErrorsList, List.mem_append] at hmem
    rcases hmem with h1 | h2
    · by_cases hp : isPostgresEnabled i
      · simp [hp] at h1
      · simp only [hp, Bool.not_false, if_pos, List.mem_append] at h1
        rcases h1 with h1a | h1b
        · rw [mem_ite_singleton _ _ _ h1a]; decide
        · rw [mem_ite_singleton _ _ _ h1b]; decide
    · by_cases hv : isValkeyEnabled i
      · simp [hv] at h2
      · simp only [hv, Bool.not_false, if_pos] at h2
        rw [mem_ite_singleton _ _ _ h2]; decide

/-- C9 witness: replacing the external ML URL on the ML-disabled CR does
not change the validation result. -/
theorem claim9_witness :
    validateImages envAllImages
      { mlDisabledNoURLCR with
        spec :=
          { mlDisabledNoURLCR.spec with
            machineLearning := some { mlDisabledSpec with url := "http://external-ml:3003" } } }
      = validateImages envAllImages mlDisabledNoURLCR :=
  claim9_ml_relaxation.1 envAllImages mlDisabledNoURLCR
    mlDisabledSpec "http://external-ml:3003" (by rfl)

/-! Status aggregation, from updateStatus in internal/controller/status.go.
The live-workload lookup of each component is modelled by its outcome: the
observed ready-replica and total replica counts of the found workload, a
not-found error, or any other API error. -/

/-- Outcome of fetching a component workload by its deterministic name. -/
inductive WorkloadGet where
  | found (readyReplicas replicas : Int)
  | notFound
  | apiError (msg : String)

/-- Readiness classification of a found workload, from status.go: the
observed ready-replica count is positive and equals the total replica
count. -/
def workloadReady (readyReplicas replicas : Int) : Bool :=
  decide (readyReplicas > 0) && decide (readyReplicas = replicas)

/-- Per-component block of updateStatus, identical for all four components
in status.go: a disabled component is vacuously ready; otherwise a found
workload is classified by workloadReady, not-found means not ready, and any
other lookup failure is propagated as an error. -/
def componentStatus (enabled : Bool) (g : WorkloadGet) : Except String Bool :=
  if enabled then
    match g with
    | WorkloadGet.found r t => Except.ok (workloadReady r t)
    | WorkloadGet.notFound => Except.ok false
    | WorkloadGet.apiError e => Except.error e
  else Except.ok true

/-- Readiness flags of the Immich status, from ImmichStatus. -/
structure ImmichStatusFlags where
  serverReady : Bool
  machineLearningReady : Bool
  valkeyReady : Bool
  postgresReady : Bool
  ready : Bool

/-- updateStatus from internal/controller/status.go: classify server,
machine learning, valkey and postgres in that order, stopping at the first
propagated lookup error, and set overall ready to the conjunction of the
four flags. -/
def updateStatus (i : Immich) (serverGet mlGet valkeyGet postgresGet : WorkloadGet) :
    Except String ImmichStatusFlags :=
  match componentStatus (isServerEnabled i) serverGet with
  | Except.error e => Except.error e
  | Except.ok serverReady =>
    match componentStatus (isMachineLearningEnabled i) mlGet with
    | Except.error e => Except.error e
    | Except.ok mlReady =>
      match componentStatus (isValkeyEnabled i) valkeyGet with
      | Except.error e => Except.error e
      | Except.ok valkeyReady =>
        match componentStatus (isPostgresEnabled i) postgresGet with
        | Except.error e => Except.error e
        | Except.ok postgresReady =>
          Except.ok
            { serverReady := serverReady
              machineLearningReady := mlReady
              valkeyReady := valkeyReady
              postgresReady := postgresReady
              ready := serverReady && mlReady && valkeyReady && postgresReady }

/-- C6. Readiness aggregation: a disabled component is vacuously ready; an
enabled component is ready exactly when its workload was found with a
positive ready-replica count equal to the total replica count; a not-found
lookup yields not-ready rather than an error; any other lookup failure is
propagated as an error (shown for the first and the last component in the
evaluation order); and when every component classifies without error, the
status carries the four flags with overall ready equal to their
conjunction. -/
theorem claim6_readiness_aggregation :
    (∀ g : WorkloadGet, componentStatus false g = Except.ok true) ∧
    (∀ r t : Int, componentStatus true (WorkloadGet.found r t)
      = Except.ok (decide (r > 0) && decide (r = t))) ∧
    componentStatus true WorkloadGet.notFound = Except.ok false ∧
    (∀ e : String, componentStatus true (WorkloadGet.apiError e) = Except.error e) ∧
    (∀ (i : Immich) (sg mg vg pg : WorkloadGet) (sb mb vb pb : Bool),
      componentStatus (isServerEnabled i) sg = Except.ok sb →
      componentStatus (isMachineLearningEnabled i) mg = Except.ok mb →
      componentStatus (isValkeyEnabled i) vg = Except.ok vb →
      componentStatus (isPostgresEnabled i) pg = Except.ok pb →
      updateStatus i sg mg vg pg = Except.ok
        { serverReady := sb, machineLearningReady := mb, valkeyReady := vb
          postgresReady := pb, ready := sb && mb && vb && pb }) ∧
    (∀ (i : Immich) (sg mg vg pg : WorkloadGet) (e : String),
      componentStatus (isServerEnabled i) sg = Except.error e →
      updateStatus i sg mg vg pg = Except.error e) ∧
    (∀ (i : Immich) (sg mg vg pg : WorkloadGet) (sb mb vb : Bool) (e : String),
      componentStatus (isServerEnabled i) sg = Except.ok sb →
      componentStatus (isMachineLearningEnabled i) mg = Except.ok mb →
      componentStatus (isValkeyEnabled i) vg = Except.ok vb →
      componentStatus (isPostgresEnabled i) pg = Except.error e →
      updateStatus i sg mg vg pg = Except.error e) := by
  refine ⟨fun g => rfl, fun r t => rfl, rfl, fun e => rfl, ?_, ?_, ?_⟩
  · intro i sg mg vg pg sb mb vb pb hs hm hv hp
    unfold updateStatus
    rw [hs, hm, hv, hp]
  · intro i sg mg vg pg e hs
    unfold updateStatus
    rw [hs]
  · intro i sg mg vg pg sb mb vb e hs hm hv hp
    unfold updateStatus
    rw [hs, hm, hv, hp]

/-- C6 witness: the aggregation applied to the default CR (all components
enabled) with the server and postgres workloads fully ready, machine
learning found but not fully ready, and valkey not found. -/
theorem claim6_witness :
    updateStatus demoCR (WorkloadGet.found 1 1) (WorkloadGet.found 1 2)
      WorkloadGet.notFound (WorkloadGet.found 2 2)
      = Except.ok
        { serverReady := true, machineLearningReady := false, valkeyReady := false
          postgresReady := true, ready := true && false && false && true } :=
  claim6_readiness_aggregation.2.2.2.2.1 demoCR
    (WorkloadGet.found 1 1) (WorkloadGet.found 1 2) WorkloadGet.notFound
    (WorkloadGet.found 2 2) true false false true
    (by rfl) (by rfl) (by rfl) (by rfl)

/-! Reconcile orchestrator, from Reconcile in
internal/controller/immich_controller.go. Each step of a pass (the
per-component reconcilers, the status recomputation, the status subresource
write) is modelled by its outcome, supplied as an input; the pass is the
control flow that sequences them. Condition bookkeeping
(meta.SetStatusCondition on the in-memory object) has no effect on the
control flow and is not modelled. -/

/-- Outcomes of the steps of one reconciliation pass. -/
structure PassEnv where
  configErr : Option String
  valkeyErr : Option String
  mlErr : Option String
  serverErr : Option String
  statusResult : Except String Bool
  statusWriteErr : Option String

/-- Result returned to the controller runtime: an immediate requeue flag,
a requeue-after delay in seconds (0 when none was requested), and the
returned error. -/
structure RecResult where
  requeueNow : Bool
  requeueAfterSeconds : Nat
  err : Option String

/-- Instrumentation of one pass: which components were attempted, whether
the status recomputation ran, and how many status subresource writes were
performed. -/
structure PassTrace where
  attempted : List String
  statusComputed : Bool
  statusWrites : Nat

/-- Error collected over the component reconcilers of one pass: each
failing component overwrites the collected error, so the last failure in
the fixed order config, valkey, machine learning, server is what remains. -/
def collectedErr (valkeyEnabled mlEnabled serverEnabled : Bool) (env : PassEnv) :
    Option String :=
  let e1 := env.configErr
  let e2 := if valkeyEnabled then (match env.valkeyErr with
    | some e => some e
    | none => e1) else e1
  let e3 := if mlEnabled then (match env.mlErr with
    | some e => some e
    | none => e2) else e2
  if serverEnabled then (match env.serverErr with
    | some e => some e
    | none => e3) else e3

/-- Components attempted in one normal pass: the configuration first, then
every enabled component, independently of any earlier failure. -/
def attemptedComponents (valkeyEnabled mlEnabled serverEnabled : Bool) : List String :=
  ["config"] ++ (if valkeyEnabled then ["valkey"] else [])
    ++ (if mlEnabled then ["machine-learning"] else [])
    ++ (if serverEnabled then ["server"] else [])

/-- Reconcile from internal/controller/immich_controller.go. On a deleted
CR the finalizer path runs and the pass stops; without a finalizer the
finalizer is added and an immediate requeue is requested; otherwise every
component is attempted with errors collected but not aborting, the status
is recomputed, a collected error yields a 30-second requeue carrying that
error without any status subresource write, and only an error-free pass
performs the single status write and requests the 5-minute routine
requeue. An error from the status recomputation or the status write is
returned without a requeue delay. -/
def Reconcile (hasFinalizer deleting valkeyEnabled mlEnabled serverEnabled : Bool)
    (env : PassEnv) : RecResult × PassTrace :=
  if deleting then
    ({ requeueNow := false, requeueAfterSeconds := 0, err := none },
     { attempted := [], statusComputed := false, statusWrites := 0 })
  else if !hasFinalizer then
    ({ requeueNow := true, requeueAfterSeconds := 0, err := none },
     { attempted := [], statusComputed := false, statusWrites := 0 })
  else
    let attempted := attemptedComponents valkeyEnabled mlEnabled serverEnabled
    let reconcileErr := collectedErr valkeyEnabled mlEnabled serverEnabled env
    match env.statusResult with
    | Except.error e =>
      ({ requeueNow := false, requeueAfterSeconds := 0, err := some e },
       { attempted := attempted, statusComputed := true, statusWrites := 0 })
    | Except.ok _ =>
      match reconcileErr with
      | some e =>
        ({ requeueNow := false, requeueAfterSeconds := 30, err := some e },
         { attempted := attempted, statusComputed := true, statusWrites := 0 })
      | none =>
        match env.statusWriteErr with
        | some e =>
          ({ requeueNow := false, requeueAfterSeconds := 0, err := some e },
           { attempted := attempted, statusComputed := true, statusWrites := 1 })
        | none =>
          ({ requeueNow := false, requeueAfterSeconds := 300, err := none },
           { attempted := attempted, statusComputed := true, statusWrites := 1 })

/-- C8 counterexample. In a normal pass where the configuration reconciler
fails and everything else succeeds, all components are still attempted and
the pass requeues after 30 seconds returning the error, but the number of
status subresource writes is zero: the write is not performed once per pass
when some component failed — it only happens on error-free passes. The
status recomputation does run, but the subresource update is skipped. -/
theorem claim8_counterexample :
    Reconcile true false true true true
      { configErr := some "boom", valkeyErr := none, mlErr := none, serverErr := none
        statusResult := Except.ok true, statusWriteErr := none }
      = ({ requeueNow := false, requeueAfterSeconds := 30, err := some "boom" },
         { attempted := ["config", "valkey", "machine-learning", "server"]
           statusComputed := true, statusWrites := 0 }) := by
  rfl

/-- C8 (amended). In every normal pass (finalizer present, not deleting,
status recomputation succeeding): a per-component error does not abort the
pass — the attempted components are always the configuration followed by
every enabled component, and the error returned is the last collected one
(a failing server reconciler overwrites any earlier collected error); the
status recomputation runs after all component attempts even when some
failed, but the status subresource write happens only on error-free
passes; a pass with a collected error requests requeue after 30 seconds,
returns that error and performs no status write; an error-free pass
performs exactly one status write and requests requeue after 5 minutes. -/
theorem claim8_orchestrator_amended :
    (∀ (vE mE sE : Bool) (env : PassEnv) (r : Bool),
      env.statusResult = Except.ok r →
      (Reconcile true false vE mE sE env).2.attempted = attemptedComponents vE mE sE ∧
      (Reconcile true false vE mE sE env).2.statusComputed = true) ∧
    (∀ (vE mE : Bool) (env : PassEnv) (e : String),
      env.serverErr = some e →
      collectedErr vE mE true env = some e) ∧
    (∀ (vE mE sE : Bool) (env : PassEnv) (r : Bool) (e : String),
      env.statusResult = Except.ok r →
      collectedErr vE mE sE env = some e →
      Reconcile true false vE mE sE env
        = ({ requeueNow := false, requeueAfterSeconds := 30, err := some e },
           { attempted := attemptedComponents vE mE sE
             statusComputed := true, statusWrites := 0 })) ∧
    (∀ (vE mE sE : Bool) (env : PassEnv) (r : Bool),
      env.statusResult = Except.ok r →
      collectedErr vE mE sE env = none →
      env.statusWriteErr = none →
      Reconcile true false vE mE sE env
        = ({ requeueNow := false, requeueAfterSeconds := 300, err := none },
           { attempted := attemptedComponents vE mE sE
             statusComputed := true, statusWrites := 1 })) := by
  refine ⟨?_, ?_, ?_, ?_⟩
  · intro vE mE sE env r hst
    unfold Reconcile
    rw [hst]
    cases hc : collectedErr vE mE sE env with
    | some e => exact ⟨rfl, rfl⟩
    | none =>
      cases hw : env.statusWriteErr with
      | some e => exact ⟨rfl, rfl⟩
      | none => exact ⟨rfl, rfl⟩
  · intro vE mE env e hsrv
    unfold collectedErr
    rw [hsrv]
    rfl
  · intro vE mE sE env r e hst hc
    unfold Reconcile
    rw [hst, hc]
    rfl
  · intro vE mE sE env r hst hc hw
    unfold Reconcile
    rw [hst, hc, hw]
    rfl

/-- C8 witness: a pass where only the valkey reconciler fails requeues
after 30 seconds with that error and performs no status write. -/
theorem claim8_witness :
    Reconcile true false true true true
      { configErr := none, valkeyErr := some "valkey down", mlErr := none, serverErr := none
        statusResult := Except.ok false, statusWriteErr := none }
      = ({ requeueNow := false, requeueAfterSeconds := 30, err := some "valkey down" },
         { attempted := attemptedComponents true true true
           statusComputed := true, statusWrites := 0 }) :=
  claim8_orchestrator_amended.2.2.1 true true true
    { configErr := none, valkeyErr := some "valkey down", mlErr := none, serverErr := none
      statusResult := Except.ok false, statusWriteErr := none }
    false "valkey down" (by rfl) (by rfl)

end ImmichOperator
